import Mathlib

/-!
# notify_plugin: action capture, pending queue and per-block message assembly

A shallow embedding of `plugins/notify_plugin/notify_plugin.cpp` (class
`notify_plugin_impl` and the start-up function of `notify_plugin`) and of
`http_async_client` (the job hand-off, `post_sync` and the worker run).

* 64-bit `name`s, transaction ids and block numbers are natural numbers;
  `action_seq_type` is `uint32_t`, so the counter of `on_action_trace` is
  incremented modulo `2^32`.
* `fc::time_point` and `fc::microseconds` are integers counting microseconds;
  the products and differences of the age check are far inside the `int64_t`
  range for every age limit a block can reach, so they are not reduced.
* A member function that can change the plugin is a function from the plugin
  state to a result and the state after the call.
* A C++ exception is the `error` case of `Except`; a handler that is left by an
  exception returns the error together with the state it leaves behind.
* `std::unordered_multimap` is a list of key/value pairs. The C++ standard does
  not fix where `insert` puts an element among the elements with an equivalent
  key, so the embedding takes that choice as a parameter (`insert_position`).
-/

namespace eosio

/-- The value of a `name` (`uint64_t`). -/
abbrev name := Nat

/-- An `account_name` is a `name`. -/
abbrev account_name := name

/-- An `action_name` is a `name`. -/
abbrev action_name := name

/-- A `transaction_id_type` (a sha256 digest), by its numeric value. -/
abbrev transaction_id_type := Nat

/-- Raw bytes of an action payload. -/
abbrev bytes := List Nat

/-- The `fc::variant` a payload decodes to, by its JSON text. -/
abbrev variant := String

/-- The `type_name` of the ABI, a string that is empty when there is none. -/
abbrev type_name := String

/-- The type `fc::url`, by its text. -/
abbrev url := String

/-- The type `notify_plugin_impl::action_seq_type`, a `uint32_t`. -/
abbrev action_seq_type := Nat

/-- Number of values of `action_seq_type`. -/
def action_seq_modulus : Nat := 2 ^ 32

/-- An instant `fc::time_point`, in microseconds since the epoch. -/
abbrev time_point := Int

/-- A duration `fc::microseconds`. -/
abbrev microseconds := Int

/-- The function `fc::seconds`. -/
def seconds (s : Int) : microseconds := s * 1000000

/-- The exceptions the plugin distinguishes. -/
inductive fc_exception where
  | assert_exception
  | eof_exception
  | other_exception (code : Nat)
deriving DecidableEq, Repr

/-- A `permission_level` of an action authorization. -/
structure permission_level where
  actor : account_name
  permission : name
deriving DecidableEq, Repr

/-- A chain `action`. -/
structure action where
  account : account_name
  name : action_name
  authorization : List permission_level
  data : bytes
deriving DecidableEq, Repr

/-- An `action_trace`: the receiver of its receipt, the action and the traces
of the inline actions it triggered. -/
inductive action_trace where
  | mk (receiver : account_name) (act : action) (inline_traces : List action_trace)

/-- The field `receipt.receiver` of a trace. -/
def action_trace.receiver : action_trace → account_name
  | .mk r _ _ => r

/-- The field `act` of a trace. -/
def action_trace.act : action_trace → action
  | .mk _ a _ => a

/-- The field `inline_traces` of a trace. -/
def action_trace.inline_traces : action_trace → List action_trace
  | .mk _ _ l => l

/-- A `transaction_trace`: the transaction id and the top-level action traces. -/
structure transaction_trace where
  id : transaction_id_type
  action_traces : List action_trace

/-- A `packed_transaction`, with the digest its member `id()` computes. -/
structure packed_transaction where
  id : transaction_id_type
  packed_trx : bytes
deriving DecidableEq, Repr

/-- The `static_variant<transaction_id_type, packed_transaction>` of a
transaction receipt. -/
inductive transaction_variant where
  | trx_id (id : transaction_id_type)
  | packed (ptrx : packed_transaction)
deriving DecidableEq, Repr

/-- A `transaction_receipt` of a block. -/
structure transaction_receipt where
  trx : transaction_variant
deriving DecidableEq, Repr

/-- A `signed_block`, with its timestamp converted to `fc::time_point` and the
number `block_num()` returns. -/
structure signed_block where
  timestamp : time_point
  block_num : Nat
  transactions : List transaction_receipt
deriving DecidableEq, Repr

/-- A `block_state`. -/
structure block_state where
  block : signed_block
deriving DecidableEq, Repr

/-- The part of an `abi_serializer` that `deserialize_action_data` calls.
`binary_to_variant` receives the action name whose string form names the type. -/
structure abi_serializer where
  get_action_type : action_name → type_name
  binary_to_variant : action_name → bytes → Except fc_exception variant

/-- The part of the chain `controller` that `deserialize_action_data` calls. -/
structure controller where
  get_abi_serializer : account_name → Option abi_serializer

/-- The struct `notify_plugin_impl::sequenced_action`: an action (its base
class) with a sequence number and a receiver. -/
structure sequenced_action where
  act : action
  seq_num : action_seq_type
  receiver : account_name
deriving DecidableEq, Repr

/-- The struct `notify_plugin_impl::action_notify`. -/
structure action_notify where
  tx_id : transaction_id_type
  account : account_name
  name : account_name
  receiver : account_name
  seq_num : action_seq_type
  block_time : time_point
  block_num : Nat
  authorization : List permission_level
  action_data : variant
deriving DecidableEq, Repr

/-- The constructor of `action_notify`. -/
def action_notify.make (act : sequenced_action) (tx_id : transaction_id_type)
    (action_data : variant) (block_time : time_point) (block_num : Nat) : action_notify :=
  { tx_id := tx_id, account := act.act.account, name := act.act.name,
    receiver := act.receiver, seq_num := act.seq_num, block_time := block_time,
    block_num := block_num, authorization := act.act.authorization,
    action_data := action_data }

/-- The struct `notify_plugin_impl::message`. -/
structure message where
  actions : List action_notify
deriving DecidableEq, Repr

/-- The struct `notify_plugin_impl::filter_entry`; its `operator<` compares the
pair `(receiver, action)`, so two entries are equivalent exactly when equal. -/
structure filter_entry where
  receiver : name
  action : name
deriving DecidableEq, Repr

/-- Where `std::unordered_multimap::insert` puts a new element among the
elements with an equivalent key: after the last of them (libc++) or before the
first of them (libstdc++). -/
inductive insert_position where
  | after_equivalent
  | before_equivalent
deriving DecidableEq, Repr

/-- The type `notify_plugin_impl::action_queue_type`, an
`std::unordered_multimap<transaction_id_type, sequenced_action>`, as the list
of its elements; only the order among equivalent keys is meaningful. -/
abbrev action_queue_type := List (transaction_id_type × sequenced_action)

/-- The member `insert` of the multimap. -/
def action_queue_type.insert (pos : insert_position) (q : action_queue_type)
    (kv : transaction_id_type × sequenced_action) : action_queue_type :=
  match pos with
  | .after_equivalent => q ++ [kv]
  | .before_equivalent => kv :: q

/-- The member `equal_range` of the multimap: the values stored under a key,
in iteration order. -/
def action_queue_type.equal_range (q : action_queue_type) (k : transaction_id_type) :
    List sequenced_action :=
  (q.filter (fun kv => decide (kv.1 = k))).map Prod.snd

/-- The member `count` of the multimap. -/
def action_queue_type.count (q : action_queue_type) (k : transaction_id_type) : Nat :=
  (action_queue_type.equal_range q k).length

/-- The member `clear` of the multimap. -/
def action_queue_type.clear (_q : action_queue_type) : action_queue_type := []

/-- A handler posted by `http_async_client::post`: the arguments `post_sync`
will be called with. -/
structure delivery_job where
  dest : url
  payload : message
  deadline : time_point
deriving DecidableEq, Repr

/-- The class `http_async_client`: the handlers posted to its `io_context`, in
submission order, and the retry flag. -/
structure http_async_client where
  ioc : List delivery_job
  retry : Bool
deriving DecidableEq, Repr

/-- The member `http_async_client::post`. -/
def http_async_client.post (c : http_async_client) (dest : url) (payload : message)
    (deadline : time_point) : http_async_client :=
  { c with ioc := c.ioc ++ [{ dest := dest, payload := payload, deadline := deadline }] }

/-- The data members of `notify_plugin_impl` the event handlers use;
`filter_on` is the `std::set<filter_entry>` as a list of its elements. -/
structure notify_plugin_impl where
  receive_url : url
  httpc : http_async_client
  age_limit : Int
  filter_on : List filter_entry
  action_queue : action_queue_type
deriving DecidableEq, Repr

/-- The constant `notify_plugin_impl::default_age_limit`. -/
def default_age_limit : Int := 60

/-- The constant `notify_plugin_impl::http_timeout`. -/
def http_timeout : microseconds := seconds 10

/-- The member `notify_plugin_impl::filter`. It is not `const` in the source,
so it returns the plugin state next to its answer. -/
def filter (my : notify_plugin_impl) (act : action_trace) : Bool × notify_plugin_impl :=
  if ({ receiver := act.receiver, action := act.act.name } : filter_entry) ∈ my.filter_on then
    (true, my)
  else if ({ receiver := act.receiver, action := 0 } : filter_entry) ∈ my.filter_on then
    (true, my)
  else
    (false, my)

mutual
/-- The member `notify_plugin_impl::on_action_trace`: the sequence number
after the subtree and the plugin state. -/
def on_action_trace (pos : insert_position) (my : notify_plugin_impl) (act : action_trace)
    (tx_id : transaction_id_type) (act_s : action_seq_type) :
    action_seq_type × notify_plugin_impl :=
  match act with
  | .mk receiver a inline_traces =>
    let r := filter my (.mk receiver a inline_traces)
    let queued : sequenced_action := { act := a, seq_num := act_s, receiver := receiver }
    let my1 : notify_plugin_impl :=
      if r.1 then
        { r.2 with action_queue := action_queue_type.insert pos r.2.action_queue (tx_id, queued) }
      else r.2
    on_action_traces pos my1 inline_traces tx_id ((act_s + 1) % action_seq_modulus)
/-- The loop `for (... : traces) act_s = on_action_trace(..., act_s)` of
`on_action_trace` and of `on_applied_tx`. -/
def on_action_traces (pos : insert_position) (my : notify_plugin_impl)
    (traces : List action_trace) (tx_id : transaction_id_type) (act_s : action_seq_type) :
    action_seq_type × notify_plugin_impl :=
  match traces with
  | [] => (act_s, my)
  | iline :: rest =>
    let r := on_action_trace pos my iline tx_id act_s
    on_action_traces pos r.2 rest tx_id r.1
end

/-- The member `notify_plugin_impl::on_applied_tx`. -/
def on_applied_tx (pos : insert_position) (my : notify_plugin_impl)
    (trace : transaction_trace) : notify_plugin_impl :=
  let id := trace.id
  if action_queue_type.count my.action_queue id = 0 then
    (on_action_traces pos my trace.action_traces id 0).2
  else my

/-- The member `notify_plugin_impl::deserialize_action_data`. -/
def deserialize_action_data (chain : controller) (act : action) : Except fc_exception variant :=
  match chain.get_abi_serializer act.account with
  | none => .error .assert_exception
  | some serializer =>
    if serializer.get_action_type act.name ≠ "" then
      serializer.binary_to_variant act.name act.data
    else .error .assert_exception

/-- The loop of `notify_plugin_impl::build_message` over the equal range. -/
def build_message_loop (chain : controller) (block : block_state)
    (tx_id : transaction_id_type) (msg : message) :
    List sequenced_action → Except fc_exception message
  | [] => .ok msg
  | it :: rest =>
    match deserialize_action_data chain it.act with
    | .error e => .error e
    | .ok act_data =>
      let notify := action_notify.make it tx_id act_data block.block.timestamp block.block.block_num
      build_message_loop chain block tx_id { actions := msg.actions ++ [notify] } rest

/-- The member `notify_plugin_impl::build_message`; the message passed by
reference is returned. -/
def build_message (chain : controller) (my : notify_plugin_impl) (msg : message)
    (block : block_state) (tx_id : transaction_id_type) : Except fc_exception message :=
  build_message_loop chain block tx_id msg (action_queue_type.equal_range my.action_queue tx_id)

/-- The member `notify_plugin_impl::send_message`; `now` is the value of
`fc::time_point::now()` read there. -/
def send_message (now : time_point) (my : notify_plugin_impl) (msg : message) :
    notify_plugin_impl :=
  { my with httpc := my.httpc.post my.receive_url msg (now + http_timeout) }

/-- The transaction id of a receipt, as `on_accepted_block` resolves it. -/
def transaction_receipt.resolve_id (trx : transaction_receipt) : transaction_id_type :=
  match trx.trx with
  | .trx_id id => id
  | .packed ptrx => ptrx.id

/-- The loop of `on_accepted_block` over the transactions of the block. -/
def on_accepted_block_loop (chain : controller) (my : notify_plugin_impl)
    (block : block_state) (msg : message) :
    List transaction_receipt → Except fc_exception message
  | [] => .ok msg
  | trx :: rest =>
    let tx_id := trx.resolve_id
    if action_queue_type.count my.action_queue tx_id ≠ 0 then
      match build_message chain my msg block tx_id with
      | .error e => .error e
      | .ok msg1 => on_accepted_block_loop chain my block msg1 rest
    else on_accepted_block_loop chain my block msg rest

/-- The member `notify_plugin_impl::on_accepted_block`. `now` is the clock
value read for the age check and `now_send` the one read by `send_message`.
The result is `error e` when the handler is left by the exception `e`. -/
def on_accepted_block (chain : controller) (now now_send : time_point)
    (my : notify_plugin_impl) (block : block_state) :
    Except fc_exception Unit × notify_plugin_impl :=
  let block_time : time_point := block.block.timestamp
  if my.age_limit = -1 ∨ now - block_time < seconds my.age_limit then
    match on_accepted_block_loop chain my block { actions := [] } block.block.transactions with
    | .error e => (.error e, my)
    | .ok msg =>
      let my1 := if msg.actions.length > 0 then send_message now_send my msg else my
      (.ok (), { my1 with action_queue := action_queue_type.clear my1.action_queue })
  else
    (.ok (), { my with action_queue := action_queue_type.clear my.action_queue })

/-! ## Reference notions used to state the properties -/

mutual
/-- The nodes of the tree under a trace in depth-first, left-to-right
pre-order: the trace itself, then the nodes of its inline traces. -/
def action_trace.preorder : action_trace → List action_trace
  | .mk receiver a inline_traces =>
    .mk receiver a inline_traces :: preorder_forest inline_traces
/-- The nodes of a forest of traces in depth-first, left-to-right pre-order. -/
def preorder_forest : List action_trace → List action_trace
  | [] => []
  | t :: rest => t.preorder ++ preorder_forest rest
end

/-- The queue element for a node that was visited with sequence number `seq`. -/
def queued_action (node : action_trace) (seq : Nat) : sequenced_action :=
  { act := node.act, seq_num := seq, receiver := node.receiver }

/-- The elements queued for a list of nodes visited in order, the first with
counter value `i`: one element for each node the filter accepts. -/
def captured (my : notify_plugin_impl) (tx_id : transaction_id_type) :
    Nat → List action_trace → List (transaction_id_type × sequenced_action)
  | _, [] => []
  | i, node :: rest =>
    (if (filter my node).1 then [(tx_id, queued_action node (i % action_seq_modulus))] else [])
      ++ captured my tx_id (i + 1) rest

/-- The records for a block: for each transaction the block lists, in the
order of the list, one record per queue entry of that transaction, in the order
of `equal_range`; `dec` gives the decoded payload of an action. -/
def block_records (my : notify_plugin_impl) (block : block_state) (dec : action → variant) :
    List action_notify :=
  block.block.transactions.flatMap (fun trx =>
    (action_queue_type.equal_range my.action_queue trx.resolve_id).map (fun a =>
      { tx_id := trx.resolve_id, account := a.act.account, name := a.act.name,
        receiver := a.receiver, seq_num := a.seq_num,
        block_time := block.block.timestamp, block_num := block.block.block_num,
        authorization := a.act.authorization, action_data := dec a.act }))

/-- Inserting a list of elements into the multimap one after the other. -/
def action_queue_type.insert_all (pos : insert_position) (q : action_queue_type)
    (l : List (transaction_id_type × sequenced_action)) : action_queue_type :=
  match pos with
  | .after_equivalent => q ++ l
  | .before_equivalent => l.reverse ++ q

/-! ## Concrete data of the scenarios -/

/-- The name `tokenaccount`. -/
def tokenaccount : name := 14781000451770197904

/-- The name `transfer`. -/
def transfer : name := 14829575313431724032

/-- The name `other`. -/
def other : name := 11987081924444160000

/-- The name `noop`. -/
def noop : name := 11324670698930044928

/-- The name `unrelated`. -/
def unrelated : name := 15343386364880617472

/-- The action `tokenaccount::transfer`. -/
def transfer_action : action :=
  { account := tokenaccount, name := transfer,
    authorization := [{ actor := other, permission := 3617214756542218240 }], data := [1, 2, 3] }

/-- The action `other::noop`. -/
def noop_action : action :=
  { account := other, name := noop, authorization := [], data := [] }

/-- The action `other::unrelated`. -/
def unrelated_action : action :=
  { account := other, name := unrelated, authorization := [], data := [] }

/-- The trace of `other::noop` with no inline traces. -/
def noop_trace : action_trace := .mk other noop_action []

/-- The trace of `tokenaccount::transfer` with no inline traces. -/
def transfer_leaf : action_trace := .mk tokenaccount transfer_action []

/-- The transaction `T` of the scenario: `tokenaccount::transfer` with the
inline action `other::noop`, then `other::unrelated`. -/
def scenario_trace : transaction_trace :=
  { id := 7,
    action_traces :=
      [.mk tokenaccount transfer_action [noop_trace], .mk other unrelated_action []] }

/-- A plugin with the single rule `(tokenaccount, wildcard)`, age limit 60 and
an empty queue. -/
def scenario_plugin : notify_plugin_impl :=
  { receive_url := "http://127.0.0.1:8080/notify", httpc := { ioc := [], retry := true },
    age_limit := 60, filter_on := [{ receiver := tokenaccount, action := 0 }],
    action_queue := [] }

/-- A transaction of `2^32 + 1` top-level actions: `2^32` times `other::noop`,
then `tokenaccount::transfer`. -/
def long_trace : transaction_trace :=
  { id := 7, action_traces := List.replicate (2 ^ 32) noop_trace ++ [transfer_leaf] }

/-- A chain on which only `tokenaccount` has an ABI; it knows `transfer`. -/
def scenario_chain : controller :=
  { get_abi_serializer := fun acc =>
      if acc = tokenaccount then
        some { get_action_type := fun a => if a = transfer then "transfer" else "",
               binary_to_variant := fun _ _ => .ok "transfer_args" }
      else none }

/-- A chain on which no account has an ABI. -/
def no_abi_chain : controller :=
  { get_abi_serializer := fun _ => none }

/-- The clock value of the scenarios. -/
def scenario_now : time_point := 1600000000000000

/-- The plugin of the scenario after the transaction `T` was applied. -/
def queued_plugin : notify_plugin_impl :=
  on_applied_tx .after_equivalent scenario_plugin scenario_trace

/-- The block `B` of the scenario: 5 seconds old, number 42, containing `T`. -/
def fresh_block : block_state :=
  { block := { timestamp := scenario_now - seconds 5, block_num := 42,
               transactions := [{ trx := .trx_id 7 }] } }

/-- The block `B2` of the scenario: 120 seconds old, number 43, containing `T`. -/
def stale_block : block_state :=
  { block := { timestamp := scenario_now - seconds 120, block_num := 43,
               transactions := [{ trx := .trx_id 7 }] } }

/-- A plugin without age limit (`-1`) whose rules accept every action of
`tokenaccount` and of `other`. -/
def unlimited_plugin : notify_plugin_impl :=
  { receive_url := "http://127.0.0.1:8080/notify", httpc := { ioc := [], retry := true },
    age_limit := -1,
    filter_on := [{ receiver := tokenaccount, action := 0 }, { receiver := other, action := 0 }],
    action_queue := [] }

/-- The plugin without age limit after two transactions were applied:
transaction 7 with the single action `tokenaccount::transfer` and transaction 8
with the single action `other::noop`. -/
def two_tx_plugin : notify_plugin_impl :=
  on_applied_tx .after_equivalent
    (on_applied_tx .after_equivalent unlimited_plugin { id := 7, action_traces := [transfer_leaf] })
    { id := 8, action_traces := [noop_trace] }

/-- A block 120 seconds old that lists transaction 7 by id and transaction 8
as a packed transaction. -/
def two_tx_block : block_state :=
  { block := { timestamp := scenario_now - seconds 120, block_num := 44,
               transactions := [{ trx := .trx_id 7 },
                                { trx := .packed { id := 8, packed_trx := [0] } }] } }

/-- The plugin without age limit after the transaction `T` was applied: its
three actions are queued. -/
def all_queued_plugin : notify_plugin_impl :=
  on_applied_tx .after_equivalent unlimited_plugin scenario_trace

/-- A transaction with two top-level `tokenaccount::transfer` actions. -/
def double_transfer_trace : transaction_trace :=
  { id := 9, action_traces := [transfer_leaf, transfer_leaf] }

/-- A fresh block that contains the transaction with two transfers. -/
def double_transfer_block : block_state :=
  { block := { timestamp := scenario_now - seconds 5, block_num := 45,
               transactions := [{ trx := .trx_id 9 }] } }


/-! ## The delivery worker (`http_async_client`) -/

/-- The `http_client` behind `sync_client`, by the outcomes of its `post_sync`:
the number of calls made before (counted over the life of the client), the
destination, the payload and the deadline give the outcome of a call. -/
abbrev http_client := Nat → url → message → time_point → Except fc_exception Unit

/-- Modelled from the spec: the macro `FC_CAPTURE_AND_LOG`, whose handlers
close a `try` block. Every failure that reaches them is logged and dropped, it
is not passed on. -/
def FC_CAPTURE_AND_LOG (_e : fc_exception) : Except fc_exception Unit := .ok ()

/-- What a call of `http_async_client::post_sync` leaves behind: whether it
returned normally, the client, and the number of calls of the `http_client`
made so far. -/
structure post_sync_result where
  result : Except fc_exception Unit
  client : http_async_client
  calls : Nat

/-- The constructor of `http_async_client`: nothing posted, `retry = true`. -/
def http_async_client.init : http_async_client := { ioc := [], retry := true }

/-- The member `http_async_client::post_sync`. The guard
`finally([this]() { retry = true; })` runs when the function is left, so the
client it leaves has `retry = true`. -/
def http_async_client.post_sync (sync_client : http_client) (c : http_async_client)
    (calls : Nat) (dest : url) (payload : message) (deadline : time_point) :
    post_sync_result :=
  let r : post_sync_result :=
    match sync_client calls dest payload deadline with
    | .ok _ => { result := .ok (), client := c, calls := calls + 1 }
    | .error .eof_exception => { result := .ok (), client := c, calls := calls + 1 }
    | .error .assert_exception =>
      if _h : c.retry = true then
        http_async_client.post_sync sync_client { c with retry := false } (calls + 1) dest payload deadline
      else { result := .ok (), client := c, calls := calls + 1 }
    | .error (.other_exception code) =>
      { result := FC_CAPTURE_AND_LOG (.other_exception code), client := c, calls := calls + 1 }
  { r with client := { r.client with retry := true } }
termination_by (if c.retry = true then 1 else 0)
decreasing_by simp [_h]

/-- The worker `ioc.run()` on the handlers posted so far: they run one after
the other in submission order, each calling `post_sync`; a handler that is left
by an exception ends the run. The client returned has the handlers that ran
removed. -/
def http_async_client.run (sync_client : http_client) (c : http_async_client) (calls : Nat) :
    List delivery_job → post_sync_result
  | [] => { result := .ok (), client := { c with ioc := [] }, calls := calls }
  | job :: rest =>
    let r := http_async_client.post_sync sync_client c calls job.dest job.payload job.deadline
    match r.result with
    | .ok _ => http_async_client.run sync_client r.client r.calls rest
    | .error e => { result := .error e, client := { r.client with ioc := rest }, calls := r.calls }

/-- The value of `retry` at the start of each handler of a run of the worker. -/
def http_async_client.retry_at_starts (sync_client : http_client) (c : http_async_client)
    (calls : Nat) : List delivery_job → List Bool
  | [] => []
  | job :: rest =>
    let r := http_async_client.post_sync sync_client c calls job.dest job.payload job.deadline
    c.retry :: http_async_client.retry_at_starts sync_client r.client r.calls rest

/-- An `http_client` whose every call fails with `fc::assert_exception`. -/
def always_assert_client : http_client := fun _ _ _ _ => .error .assert_exception

/-- An `http_client` whose every call succeeds. -/
def always_ok_client : http_client := fun _ _ _ _ => .ok ()

/-! ## Options and start-up (`notify_plugin`) -/

/-- The exception `fc::invalid_arg_exception`, by its exception code. -/
def invalid_arg_exception : fc_exception := .other_exception 5

/-- A `std::exception` (such as `std::out_of_range` of `variables_map::at` or
`boost::bad_any_cast` of `as<T>()`), by the code it is rethrown with. -/
def std_exception : fc_exception := .other_exception 13

/-- The value stored for an option in a `variables_map`. -/
inductive variable_value where
  | string_value (s : String)
  | strings_value (l : List String)
  | int64_value (v : Int)
deriving DecidableEq, Repr

/-- A `boost::program_options::variables_map`: the value stored under each
option name, if any. -/
abbrev variables_map := String → Option variable_value

/-- The member `count` of the map: 0 or 1. -/
def variables_map.count (options : variables_map) (key : String) : Nat :=
  match options key with
  | some _ => 1
  | none => 0

/-- The expression `options.at(key).as<string>()`. -/
def variables_map.at_string (options : variables_map) (key : String) :
    Except fc_exception String :=
  match options key with
  | some (.string_value s) => .ok s
  | _ => .error std_exception

/-- The expression `options.at(key).as<vector<string>>()`. -/
def variables_map.at_strings (options : variables_map) (key : String) :
    Except fc_exception (List String) :=
  match options key with
  | some (.strings_value l) => .ok l
  | _ => .error std_exception

/-- The expression `options.at(key).as<int64_t>()`. -/
def variables_map.at_int64 (options : variables_map) (key : String) :
    Except fc_exception Int :=
  match options key with
  | some (.int64_value v) => .ok v
  | _ => .error std_exception

/-- The map the plugin receives for the options that `set_program_options`
registers: `notify-receive-url` when given, `notify-filter-on` when given at
least once (composing), and `notify-age-limit`, which has the default value
`default_age_limit` when not given. -/
def notify_options (receive_url : Option String) (filter_on : List String)
    (age_limit : Option Int) : variables_map :=
  fun key =>
    if key = "notify-receive-url" then receive_url.map .string_value
    else if key = "notify-filter-on" then
      (if filter_on = [] then none else some (.strings_value filter_on))
    else if key = "notify-age-limit" then
      some (.int64_value (age_limit.getD default_age_limit))
    else none

/-- The pieces of a character list between the occurrences of `sep`. -/
def split_chars (sep : Char) : List Char → List (List Char)
  | [] => [[]]
  | c :: cs =>
    if c = sep then [] :: split_chars sep cs
    else
      match split_chars sep cs with
      | [] => [[c]]
      | piece :: pieces => (c :: piece) :: pieces

/-- The call `boost::split(v, s, boost::is_any_of(":"))`: the pieces of `s`
between its colons, empty pieces included. -/
def boost_split (s : String) : List String :=
  (split_chars ':' s.data).map String.mk

/-- The member `insert` of `std::set<filter_entry>`: an entry equivalent to one
in the set is not added. -/
def filter_on_insert (filter_on : List filter_entry) (fe : filter_entry) : List filter_entry :=
  if fe ∈ filter_on then filter_on else filter_on ++ [fe]

/-- The class `notify_plugin`: the implementation object `my` and, of the
members of `notify_plugin_impl` that only the lifecycle functions use, whether
each of the two signal connections is set. -/
structure notify_plugin where
  my : notify_plugin_impl
  accepted_block_conn : Bool
  applied_tx_conn : Bool
deriving DecidableEq, Repr

/-- The constructor of `notify_plugin`: a new `notify_plugin_impl`, whose age
limit is `default_age_limit`. -/
def notify_plugin.init : notify_plugin :=
  { my := { receive_url := "", httpc := http_async_client.init, age_limit := default_age_limit,
            filter_on := [], action_queue := [] },
    accepted_block_conn := false, applied_tx_conn := false }

/-- The filter entry `filter_entry fe{v[0], v[1]}` built from the pieces of a
rule string; `to_name` is the conversion of a string to a `name`. -/
def rule_entry (to_name : String → name) (v : List String) : filter_entry :=
  { receiver := to_name (v.getD 0 ""), action := to_name (v.getD 1 "") }

/-- The loop of `plugin_initialize` over the strings of `notify-filter-on`. -/
def filter_on_loop (to_name : String → name) (my : notify_plugin_impl) :
    List String → Except fc_exception Unit × notify_plugin_impl
  | [] => (.ok (), my)
  | s :: rest =>
    let v := boost_split s
    if v.length ≠ 2 then (.error invalid_arg_exception, my)
    else
      let fe := rule_entry to_name v
      if fe.receiver = 0 then (.error invalid_arg_exception, my)
      else filter_on_loop to_name { my with filter_on := filter_on_insert my.filter_on fe } rest

/-- The member `notify_plugin::plugin_initialize`, up to the connection of the
two signals; `to_name` is the conversion of a string to a `name`. An exception
is rethrown by `FC_LOG_AND_RETHROW`, so the result is `error e` together with
the plugin as it is at that point. -/
def plugin_initialize (to_name : String → name) (p : notify_plugin) (options : variables_map) :
    Except fc_exception Unit × notify_plugin :=
  if variables_map.count options "notify-receive-url" ≠ 1 then
    (.error invalid_arg_exception, p)
  else
    match variables_map.at_string options "notify-receive-url" with
    | .error e => (.error e, p)
    | .ok url_str =>
      let my1 : notify_plugin_impl := { p.my with receive_url := url_str }
      let r2 : Except fc_exception Unit × notify_plugin_impl :=
        if variables_map.count options "notify-filter-on" ≠ 0 then
          match variables_map.at_strings options "notify-filter-on" with
          | .error e => (.error e, my1)
          | .ok fo => filter_on_loop to_name my1 fo
        else (.ok (), my1)
      match r2.1 with
      | .error e => (.error e, { p with my := r2.2 })
      | .ok _ =>
        let r3 : Except fc_exception Unit × notify_plugin_impl :=
          if variables_map.count options "filter_age_limit" ≠ 0 then
            match variables_map.at_int64 options "filter-age-limit" with
            | .error e => (.error e, r2.2)
            | .ok v => (.ok (), { r2.2 with age_limit := v })
          else (.ok (), r2.2)
        match r3.1 with
        | .error e => (.error e, { p with my := r3.2 })
        | .ok _ => (.ok (), { my := r3.2, accepted_block_conn := true, applied_tx_conn := true })

/-- A conversion of strings to names for the scenarios: the name of the empty
string is 0, `tokenaccount` and `transfer` have their names, every other
string the name `other`. -/
def scenario_to_name (s : String) : name :=
  if s = "" then 0
  else if s = "tokenaccount" then tokenaccount
  else if s = "transfer" then transfer
  else other

/-- The plugin of the scenario with age limit -2. -/
def negative_limit_plugin : notify_plugin_impl := { queued_plugin with age_limit := -2 }

/-! ## Lemmas on the filter and the traversal -/

theorem filter_snd (my : notify_plugin_impl) (act : action_trace) : (filter my act).2 = my := by
  unfold filter
  split_ifs <;> rfl

theorem filter_fst_congr (my my2 : notify_plugin_impl) (h : my2.filter_on = my.filter_on)
    (act : action_trace) : (filter my2 act).1 = (filter my act).1 := by
  unfold filter
  rw [h]
  split_ifs <;> rfl

theorem captured_congr (my my2 : notify_plugin_impl) (h : my2.filter_on = my.filter_on)
    (tx_id : transaction_id_type) (i : Nat) (l : List action_trace) :
    captured my2 tx_id i l = captured my tx_id i l := by
  induction l generalizing i with
  | nil => rfl
  | cons node rest ih => simp only [captured, filter_fst_congr my my2 h, ih]

theorem captured_append (my : notify_plugin_impl) (tx_id : transaction_id_type) (i : Nat)
    (l1 l2 : List action_trace) :
    captured my tx_id i (l1 ++ l2)
      = captured my tx_id i l1 ++ captured my tx_id (i + l1.length) l2 := by
  induction l1 generalizing i with
  | nil => simp [captured]
  | cons node rest ih =>
    show _ ++ captured my tx_id (i + 1) (rest ++ l2) = _
    have e : i + 1 + rest.length = i + (rest.length + 1) := by omega
    rw [ih, e]
    simp only [captured, List.length_cons, List.append_assoc]

theorem captured_mod (my : notify_plugin_impl) (tx_id : transaction_id_type) (i j : Nat)
    (h : i % action_seq_modulus = j % action_seq_modulus) (l : List action_trace) :
    captured my tx_id i l = captured my tx_id j l := by
  induction l generalizing i j with
  | nil => rfl
  | cons node rest ih =>
    simp only [captured, h]
    congr 1
    apply ih
    rw [Nat.add_mod, h, ← Nat.add_mod]

theorem insert_all_nil (pos : insert_position) (q : action_queue_type) :
    action_queue_type.insert_all pos q [] = q := by
  cases pos <;> simp [action_queue_type.insert_all]

theorem insert_all_append (pos : insert_position) (q : action_queue_type)
    (l1 l2 : List (transaction_id_type × sequenced_action)) :
    action_queue_type.insert_all pos (action_queue_type.insert_all pos q l1) l2
      = action_queue_type.insert_all pos q (l1 ++ l2) := by
  cases pos <;> simp [action_queue_type.insert_all]

theorem insert_eq_insert_all (pos : insert_position) (q : action_queue_type)
    (kv : transaction_id_type × sequenced_action) :
    action_queue_type.insert pos q kv = action_queue_type.insert_all pos q [kv] := by
  cases pos <;> simp [action_queue_type.insert, action_queue_type.insert_all]

mutual
theorem on_action_trace_eq (pos : insert_position) (my : notify_plugin_impl)
    (act : action_trace) (tx_id : transaction_id_type) (act_s : Nat)
    (hs : act_s < action_seq_modulus) :
    on_action_trace pos my act tx_id act_s
      = ((act_s + act.preorder.length) % action_seq_modulus,
         { my with action_queue := action_queue_type.insert_all pos my.action_queue (captured my tx_id act_s act.preorder) }) := by
  match act with
  | .mk receiver a inline_traces =>
    have hm : (act_s + 1) % action_seq_modulus < action_seq_modulus :=
      Nat.mod_lt _ (by unfold action_seq_modulus; norm_num)
    have hc : ∀ q2 : action_queue_type, ∀ i l,
        captured { my with action_queue := q2 } tx_id i l = captured my tx_id i l :=
      fun q2 i l => captured_congr my { my with action_queue := q2 } rfl tx_id i l
    have hn : ((act_s + 1) % action_seq_modulus + (preorder_forest inline_traces).length)
        % action_seq_modulus
        = (act_s + ((preorder_forest inline_traces).length + 1)) % action_seq_modulus := by
      rw [Nat.mod_add_mod]
      congr 1
      omega
    rw [on_action_trace]
    simp only [filter_snd]
    by_cases hf : (filter my (.mk receiver a inline_traces)).1 = true
    · rw [if_pos hf, on_action_traces_eq pos _ inline_traces tx_id _ hm]
      simp only [action_trace.preorder, captured, List.length_cons, if_pos hf, hc, hn]
      rw [captured_mod my tx_id _ (act_s + 1) (Nat.mod_mod _ _)]
      simp only [insert_eq_insert_all, insert_all_append, queued_action, action_trace.act,
        action_trace.receiver, Nat.mod_eq_of_lt hs]
    · rw [if_neg hf, on_action_traces_eq pos _ inline_traces tx_id _ hm]
      simp only [action_trace.preorder, captured, List.length_cons, if_neg hf, hn]
      rw [captured_mod my tx_id _ (act_s + 1) (Nat.mod_mod _ _)]
      simp
theorem on_action_traces_eq (pos : insert_position) (my : notify_plugin_impl)
    (traces : List action_trace) (tx_id : transaction_id_type) (act_s : Nat)
    (hs : act_s < action_seq_modulus) :
    on_action_traces pos my traces tx_id act_s
      = ((act_s + (preorder_forest traces).length) % action_seq_modulus,
         { my with action_queue := action_queue_type.insert_all pos my.action_queue (captured my tx_id act_s (preorder_forest traces)) }) := by
  match traces with
  | [] =>
    simp [on_action_traces, preorder_forest, captured, insert_all_nil, Nat.mod_eq_of_lt hs]
  | iline :: rest =>
    have hm : (act_s + iline.preorder.length) % action_seq_modulus < action_seq_modulus :=
      Nat.mod_lt _ (by unfold action_seq_modulus; norm_num)
    have hc : ∀ q2 : action_queue_type, ∀ i l,
        captured { my with action_queue := q2 } tx_id i l = captured my tx_id i l :=
      fun q2 i l => captured_congr my { my with action_queue := q2 } rfl tx_id i l
    have hn : ((act_s + iline.preorder.length) % action_seq_modulus
        + (preorder_forest rest).length) % action_seq_modulus
        = (act_s + (iline.preorder.length + (preorder_forest rest).length))
          % action_seq_modulus := by
      rw [Nat.mod_add_mod]
      congr 1
      omega
    rw [on_action_traces, on_action_trace_eq pos my iline tx_id act_s hs]
    simp only []
    rw [on_action_traces_eq pos _ rest tx_id _ hm]
    simp only [hc, hn, preorder_forest, captured_append, insert_all_append, List.length_append]
    rw [captured_mod my tx_id _ (act_s + iline.preorder.length) (Nat.mod_mod _ _)]
end


/-- C1: `filter` answers true exactly when the pair (receiver, action name) of
the trace or the pair (receiver, 0) is in the rule set, and it returns the
plugin state (rule set, queue and all other members) unchanged. -/
theorem filter_iff_rule_or_wildcard (my : notify_plugin_impl) (receiver : account_name)
    (a : action) (inline_traces : List action_trace) :
    ((filter my (.mk receiver a inline_traces)).1 = true ↔
        ({ receiver := receiver, action := a.name } : filter_entry) ∈ my.filter_on ∨
        ({ receiver := receiver, action := 0 } : filter_entry) ∈ my.filter_on) ∧
      (filter my (.mk receiver a inline_traces)).2 = my := by
  refine ⟨?_, filter_snd my _⟩
  unfold filter
  simp only [action_trace.receiver, action_trace.act]
  split_ifs with h1 h2
  · simp [h1]
  · simp [h2]
  · simp [h1, h2]


/-! ## Lemmas on the queue after `on_applied_tx` -/

theorem captured_map_fst (my : notify_plugin_impl) (tx_id : transaction_id_type) (i : Nat)
    (l : List action_trace) : ∀ kv ∈ captured my tx_id i l, kv.1 = tx_id := by
  induction l generalizing i with
  | nil => simp [captured]
  | cons node rest ih =>
    intro kv hkv
    simp only [captured, List.mem_append] at hkv
    rcases hkv with h | h
    · split_ifs at h
      · simp only [List.mem_singleton] at h
        rw [h]
      · simp at h
    · exact ih _ _ h

theorem equal_range_append (q1 q2 : action_queue_type) (k : transaction_id_type) :
    action_queue_type.equal_range (q1 ++ q2) k
      = action_queue_type.equal_range q1 k ++ action_queue_type.equal_range q2 k := by
  simp [action_queue_type.equal_range]

theorem equal_range_reverse (q : action_queue_type) (k : transaction_id_type) :
    action_queue_type.equal_range q.reverse k = (action_queue_type.equal_range q k).reverse := by
  simp [action_queue_type.equal_range, List.filter_reverse]

theorem equal_range_of_keys_eq (l : action_queue_type) (k : transaction_id_type)
    (h : ∀ kv ∈ l, kv.1 = k) : action_queue_type.equal_range l k = l.map Prod.snd := by
  unfold action_queue_type.equal_range
  rw [List.filter_eq_self.mpr]
  intro kv hkv
  simp [h kv hkv]

theorem equal_range_of_keys_ne (l : action_queue_type) (k k2 : transaction_id_type)
    (h : ∀ kv ∈ l, kv.1 = k) (hne : k2 ≠ k) : action_queue_type.equal_range l k2 = [] := by
  unfold action_queue_type.equal_range
  rw [List.filter_eq_nil_iff.mpr, List.map_nil]
  intro kv hkv
  simp only [decide_eq_true_eq]
  rw [h kv hkv]
  exact fun e => hne e.symm

theorem equal_range_insert_all (pos : insert_position) (q l : action_queue_type)
    (k : transaction_id_type) (h : ∀ kv ∈ l, kv.1 = k) :
    action_queue_type.equal_range (action_queue_type.insert_all pos q l) k
      = match pos with
        | .after_equivalent => action_queue_type.equal_range q k ++ l.map Prod.snd
        | .before_equivalent => (l.map Prod.snd).reverse ++ action_queue_type.equal_range q k := by
  cases pos
  · simp only [action_queue_type.insert_all, equal_range_append, equal_range_of_keys_eq l k h]
  · simp only [action_queue_type.insert_all, equal_range_append, equal_range_reverse,
      equal_range_of_keys_eq l k h]

theorem equal_range_insert_all_ne (pos : insert_position) (q l : action_queue_type)
    (k k2 : transaction_id_type) (h : ∀ kv ∈ l, kv.1 = k) (hne : k2 ≠ k) :
    action_queue_type.equal_range (action_queue_type.insert_all pos q l) k2
      = action_queue_type.equal_range q k2 := by
  cases pos
  · simp only [action_queue_type.insert_all, equal_range_append,
      equal_range_of_keys_ne l k k2 h hne, List.append_nil]
  · simp only [action_queue_type.insert_all, equal_range_append, equal_range_reverse,
      equal_range_of_keys_ne l k k2 h hne, List.reverse_nil, List.nil_append]

theorem equal_range_eq_nil_of_count (q : action_queue_type) (k : transaction_id_type)
    (h : action_queue_type.count q k = 0) : action_queue_type.equal_range q k = [] :=
  List.length_eq_zero.mp h

theorem action_seq_modulus_pos : 0 < action_seq_modulus := by
  unfold action_seq_modulus
  norm_num

theorem on_applied_tx_eq (pos : insert_position) (my : notify_plugin_impl)
    (trace : transaction_trace) (h : action_queue_type.count my.action_queue trace.id = 0) :
    on_applied_tx pos my trace
      = { my with action_queue := action_queue_type.insert_all pos my.action_queue (captured my trace.id 0 (preorder_forest trace.action_traces)) } := by
  unfold on_applied_tx
  simp only [h, if_true]
  rw [on_action_traces_eq pos my _ _ 0 action_seq_modulus_pos]

theorem on_applied_tx_of_count_ne (pos : insert_position) (my : notify_plugin_impl)
    (trace : transaction_trace) (h : action_queue_type.count my.action_queue trace.id ≠ 0) :
    on_applied_tx pos my trace = my := by
  unfold on_applied_tx
  simp only [h, if_false]

theorem equal_range_on_applied_tx (pos : insert_position) (my : notify_plugin_impl)
    (trace : transaction_trace) (h : action_queue_type.count my.action_queue trace.id = 0) :
    action_queue_type.equal_range (on_applied_tx pos my trace).action_queue trace.id
      = match pos with
        | .after_equivalent =>
          (captured my trace.id 0 (preorder_forest trace.action_traces)).map Prod.snd
        | .before_equivalent =>
          ((captured my trace.id 0 (preorder_forest trace.action_traces)).map Prod.snd).reverse := by
  rw [on_applied_tx_eq pos my trace h]
  simp only []
  rw [equal_range_insert_all pos _ _ _ (captured_map_fst my trace.id 0 _),
    equal_range_eq_nil_of_count _ _ h]
  cases pos <;> simp

theorem captured_map_snd (my : notify_plugin_impl) (tx_id : transaction_id_type) (i : Nat)
    (l : List action_trace) :
    (captured my tx_id i l).map Prod.snd
      = ((l.enumFrom i).filter (fun p => (filter my p.2).1)).map
          (fun p => queued_action p.2 (p.1 % action_seq_modulus)) := by
  induction l generalizing i with
  | nil => rfl
  | cons node rest ih =>
    simp only [captured, List.map_append, ih, List.enumFrom_cons, List.filter_cons]
    by_cases hf : (filter my node).1 = true
    · simp [hf]
    · simp [hf]

theorem mem_captured_iff (my : notify_plugin_impl) (tx_id : transaction_id_type) (i : Nat)
    (l : List action_trace) (e : sequenced_action) :
    e ∈ (captured my tx_id i l).map Prod.snd ↔
      ∃ k, ∃ h : k < l.length,
        (filter my (l.get ⟨k, h⟩)).1 = true ∧
          e = queued_action (l.get ⟨k, h⟩) ((i + k) % action_seq_modulus) := by
  induction l generalizing i with
  | nil => simp [captured]
  | cons node rest ih =>
    simp only [captured, List.map_append, List.mem_append, ih, List.length_cons]
    constructor
    · rintro (h | ⟨k, hk, hf, he⟩)
      · refine ⟨0, Nat.succ_pos _, ?_⟩
        split_ifs at h with hf
        · simp only [List.map_cons, List.map_nil, List.mem_singleton] at h
          exact ⟨hf, by simpa using h⟩
        · simp at h
      · refine ⟨k + 1, Nat.succ_lt_succ hk, hf, ?_⟩
        rw [he]
        simp only [List.get_cons_succ]
        congr 2
        omega
    · rintro ⟨k, hk, hf, he⟩
      cases k with
      | zero =>
        left
        have hf2 : (filter my node).1 = true := hf
        have he2 : e = queued_action node ((i + 0) % action_seq_modulus) := he
        simp [hf2, he2]
      | succ k =>
        right
        refine ⟨k, Nat.lt_of_succ_lt_succ hk, hf, ?_⟩
        rw [he]
        simp only [List.get_cons_succ]
        congr 2
        omega


/-! ## Sequence numbers and queue entries (C2, C3, C4) -/

theorem preorder_forest_append (l1 l2 : List action_trace) :
    preorder_forest (l1 ++ l2) = preorder_forest l1 ++ preorder_forest l2 := by
  induction l1 with
  | nil => simp [preorder_forest]
  | cons t rest ih => simp [preorder_forest, ih]

theorem preorder_forest_replicate_leaf (n : Nat) (receiver : account_name) (a : action) :
    preorder_forest (List.replicate n (.mk receiver a []))
      = List.replicate n (.mk receiver a []) := by
  induction n with
  | zero => simp [preorder_forest]
  | succ n ih => simp [List.replicate_succ, preorder_forest, action_trace.preorder, ih]

theorem mem_equal_range_on_applied_tx (pos : insert_position) (my : notify_plugin_impl)
    (trace : transaction_trace)
    (h : action_queue_type.count my.action_queue trace.id = 0) (e : sequenced_action) :
    e ∈ action_queue_type.equal_range (on_applied_tx pos my trace).action_queue trace.id ↔
      ∃ i, ∃ hi : i < (preorder_forest trace.action_traces).length,
        (filter my ((preorder_forest trace.action_traces).get ⟨i, hi⟩)).1 = true ∧
          e = { act := ((preorder_forest trace.action_traces).get ⟨i, hi⟩).act,
                seq_num := i % 2 ^ 32,
                receiver := ((preorder_forest trace.action_traces).get ⟨i, hi⟩).receiver } := by
  have hm := mem_captured_iff my trace.id 0 (preorder_forest trace.action_traces) e
  simp only [Nat.zero_add, queued_action, action_seq_modulus] at hm
  rw [equal_range_on_applied_tx pos my trace h]
  cases pos
  · exact hm
  · simp only [List.mem_reverse]
    exact hm

/-- C2 (amended): when the transaction id has no entry in the queue, the
actions queued by `on_applied_tx` for that id are exactly the elements built
from the nodes the filter accepts, and the element of the node with index `i`
in the depth-first, left-to-right pre-order of the whole forest (counted from
0 over all nodes) carries `i % 2^32` as `seq_num`, whatever the rule set and
wherever the container inserts. -/
theorem seq_num_is_preorder_index_mod (pos : insert_position) (my : notify_plugin_impl)
    (trace : transaction_trace)
    (h : action_queue_type.count my.action_queue trace.id = 0) (e : sequenced_action) :
    e ∈ action_queue_type.equal_range (on_applied_tx pos my trace).action_queue trace.id ↔
      ∃ i, ∃ hi : i < (preorder_forest trace.action_traces).length,
        (filter my ((preorder_forest trace.action_traces).get ⟨i, hi⟩)).1 = true ∧
          e = { act := ((preorder_forest trace.action_traces).get ⟨i, hi⟩).act,
                seq_num := i % 2 ^ 32,
                receiver := ((preorder_forest trace.action_traces).get ⟨i, hi⟩).receiver } :=
  mem_equal_range_on_applied_tx pos my trace h e

/-- Witness of C2 (amended) in the scenario: the queued `transfer` action is
node 0 of the pre-order and carries sequence number 0. -/
theorem seq_num_is_preorder_index_mod_scenario :
    action_queue_type.count scenario_plugin.action_queue scenario_trace.id = 0 ∧
    (({ act := transfer_action, seq_num := 0, receiver := tokenaccount } : sequenced_action) ∈
        action_queue_type.equal_range
          (on_applied_tx .after_equivalent scenario_plugin scenario_trace).action_queue
          scenario_trace.id ↔
      ∃ i, ∃ hi : i < (preorder_forest scenario_trace.action_traces).length,
        (filter scenario_plugin
            ((preorder_forest scenario_trace.action_traces).get ⟨i, hi⟩)).1 = true ∧
          ({ act := transfer_action, seq_num := 0, receiver := tokenaccount } : sequenced_action)
            = { act := ((preorder_forest scenario_trace.action_traces).get ⟨i, hi⟩).act,
                seq_num := i % 2 ^ 32,
                receiver :=
                  ((preorder_forest scenario_trace.action_traces).get ⟨i, hi⟩).receiver }) :=
  ⟨by decide,
    seq_num_is_preorder_index_mod .after_equivalent scenario_plugin scenario_trace (by decide)
      { act := transfer_action, seq_num := 0, receiver := tokenaccount }⟩

theorem long_forest_refutes (n : Nat) (hn : 0 < n) (hmod : n % 2 ^ 32 = 0) :
    ¬ (∀ e ∈ action_queue_type.equal_range
          (on_applied_tx .after_equivalent scenario_plugin
            { id := 7, action_traces := List.replicate n noop_trace ++ [transfer_leaf] }).action_queue 7,
        ∃ i, ∃ hi : i < (preorder_forest (List.replicate n noop_trace ++ [transfer_leaf])).length,
          (filter scenario_plugin
            ((preorder_forest (List.replicate n noop_trace ++ [transfer_leaf])).get ⟨i, hi⟩)).1 = true ∧
          e = { act := ((preorder_forest (List.replicate n noop_trace ++ [transfer_leaf])).get ⟨i, hi⟩).act,
                seq_num := i,
                receiver := ((preorder_forest (List.replicate n noop_trace ++ [transfer_leaf])).get ⟨i, hi⟩).receiver }) := by
  have hnodes : preorder_forest (List.replicate n noop_trace ++ [transfer_leaf])
      = List.replicate n noop_trace ++ [transfer_leaf] := by
    rw [preorder_forest_append]
    unfold noop_trace
    rw [preorder_forest_replicate_leaf]
    simp [preorder_forest, action_trace.preorder, transfer_leaf]
  intro hall
  have hmem : ({ act := transfer_action, seq_num := 0, receiver := tokenaccount } : sequenced_action) ∈
      action_queue_type.equal_range
          (on_applied_tx .after_equivalent scenario_plugin
            { id := 7, action_traces := List.replicate n noop_trace ++ [transfer_leaf] }).action_queue 7 := by
    refine (mem_equal_range_on_applied_tx .after_equivalent scenario_plugin
      { id := 7, action_traces := List.replicate n noop_trace ++ [transfer_leaf] } rfl _).mpr ?_
    have hlen : n < (preorder_forest (List.replicate n noop_trace ++ [transfer_leaf])).length := by
      rw [hnodes]
      simp
    have hget : (preorder_forest (List.replicate n noop_trace ++ [transfer_leaf])).get ⟨n, hlen⟩
        = transfer_leaf := by
      simp only [List.get_eq_getElem, hnodes]
      rw [List.getElem_append_right (by simp)]
      simp
    refine ⟨n, hlen, ?_, ?_⟩
    · rw [hget]
      decide
    · rw [hget, hmod]
      rfl
  obtain ⟨i, hi, hf, he⟩ := hall _ hmem
  have hi0 : i = 0 := by
    have := congrArg sequenced_action.seq_num he
    exact this.symm
  subst hi0
  have hget0 : (preorder_forest (List.replicate n noop_trace ++ [transfer_leaf])).get ⟨0, hi⟩
      = noop_trace := by
    simp only [List.get_eq_getElem, hnodes]
    rw [List.getElem_append_left (by simpa using hn)]
    simp
  rw [hget0] at hf
  revert hf
  decide

/-- C2 as stated fails: in the transaction of `2^32 + 1` top-level actions whose
last one is the only one the rule `(tokenaccount, wildcard)` accepts, the queued
action is the node with pre-order index `2^32`, but it is not true that every
queued action carries its node's index as `seq_num` (it carries 0). -/
theorem seq_num_wraps_at_uint32 :
    ¬ (∀ e ∈ action_queue_type.equal_range
          (on_applied_tx .after_equivalent scenario_plugin long_trace).action_queue long_trace.id,
        ∃ i, ∃ hi : i < (preorder_forest long_trace.action_traces).length,
          (filter scenario_plugin
            ((preorder_forest long_trace.action_traces).get ⟨i, hi⟩)).1 = true ∧
          e = { act := ((preorder_forest long_trace.action_traces).get ⟨i, hi⟩).act,
                seq_num := i,
                receiver := ((preorder_forest long_trace.action_traces).get ⟨i, hi⟩).receiver }) :=
  long_forest_refutes (2 ^ 32) (by norm_num) (by norm_num)


theorem equal_range_on_applied_tx_perm (pos : insert_position) (my : notify_plugin_impl)
    (trace : transaction_trace) (h : action_queue_type.count my.action_queue trace.id = 0) :
    List.Perm
      (action_queue_type.equal_range (on_applied_tx pos my trace).action_queue trace.id)
      ((captured my trace.id 0 (preorder_forest trace.action_traces)).map Prod.snd) := by
  rw [equal_range_on_applied_tx pos my trace h]
  cases pos
  · exact List.Perm.refl _
  · exact List.reverse_perm _

/-- C3: when the transaction id has no entry in the queue, the queue entries
for that id after `on_applied_tx` are, as a multiset, exactly the nodes of the
forest (in pre-order, numbered from 0) that `filter` accepts: one entry per
accepted node, none for a rejected node, each holding the node's action, the
receiver of its receipt and the sequence number given to the node. -/
theorem queue_entries_are_accepted_nodes (pos : insert_position) (my : notify_plugin_impl)
    (trace : transaction_trace)
    (h : action_queue_type.count my.action_queue trace.id = 0) :
    List.Perm
      (action_queue_type.equal_range (on_applied_tx pos my trace).action_queue trace.id)
      (((preorder_forest trace.action_traces).enum.filter (fun p => (filter my p.2).1)).map
        (fun p => ({ act := p.2.act, seq_num := p.1 % 2 ^ 32, receiver := p.2.receiver } :
          sequenced_action))) := by
  have hp := equal_range_on_applied_tx_perm pos my trace h
  rw [captured_map_snd] at hp
  exact hp

/-- Witness of C3, the scenario: with the single rule (tokenaccount, wildcard)
the three nodes are visited with sequence numbers 0, 1, 2 (the counter ends at
3) and only the `transfer` action, with sequence number 0, is queued. -/
theorem queue_entries_scenario :
    action_queue_type.count scenario_plugin.action_queue scenario_trace.id = 0 ∧
    (preorder_forest scenario_trace.action_traces).enum.map
        (fun p => (p.1, p.2.receiver, p.2.act.name))
      = [(0, tokenaccount, transfer), (1, other, noop), (2, other, unrelated)] ∧
    (on_action_traces .after_equivalent scenario_plugin scenario_trace.action_traces 7 0).1 = 3 ∧
    List.Perm
      (action_queue_type.equal_range
        (on_applied_tx .after_equivalent scenario_plugin scenario_trace).action_queue 7)
      [{ act := transfer_action, seq_num := 0, receiver := tokenaccount }] :=
  ⟨by decide, by decide, by decide,
    queue_entries_are_accepted_nodes .after_equivalent scenario_plugin scenario_trace (by decide)⟩

theorem on_applied_tx_twice (pos : insert_position) (my : notify_plugin_impl)
    (trace : transaction_trace) :
    on_applied_tx pos (on_applied_tx pos my trace) trace = on_applied_tx pos my trace := by
  by_cases h : action_queue_type.count my.action_queue trace.id = 0
  · by_cases hc : captured my trace.id 0 (preorder_forest trace.action_traces) = []
    · have e1 : on_applied_tx pos my trace = my := by
        rw [on_applied_tx_eq pos my trace h, hc, insert_all_nil]
      rw [e1, e1]
    · apply on_applied_tx_of_count_ne
      unfold action_queue_type.count
      rw [equal_range_on_applied_tx pos my trace h]
      cases pos <;> simpa using hc
  · rw [on_applied_tx_of_count_ne pos my trace h, on_applied_tx_of_count_ne pos my trace h]

/-- C4: applying the same transaction trace twice in a row leaves the plugin
(hence the queue) as applying it once does; and when the id of the trace
already has at least one entry in the queue, `on_applied_tx` changes nothing. -/
theorem on_applied_tx_idempotent :
    (∀ (pos : insert_position) (my : notify_plugin_impl) (trace : transaction_trace),
      on_applied_tx pos (on_applied_tx pos my trace) trace = on_applied_tx pos my trace) ∧
    (∀ (pos : insert_position) (my : notify_plugin_impl) (trace : transaction_trace),
      1 ≤ action_queue_type.count my.action_queue trace.id →
        on_applied_tx pos my trace = my) :=
  ⟨on_applied_tx_twice, fun pos my trace h =>
    on_applied_tx_of_count_ne pos my trace (Nat.one_le_iff_ne_zero.mp h)⟩

/-- Witness of C4: once the scenario transaction is queued, its id has one
entry and a second delivery of the same trace leaves the plugin unchanged. -/
theorem on_applied_tx_idempotent_scenario :
    1 ≤ action_queue_type.count
        (on_applied_tx .after_equivalent scenario_plugin scenario_trace).action_queue
        scenario_trace.id ∧
    on_applied_tx .after_equivalent
        (on_applied_tx .after_equivalent scenario_plugin scenario_trace) scenario_trace
      = on_applied_tx .after_equivalent scenario_plugin scenario_trace :=
  ⟨by decide,
    on_applied_tx_idempotent.2 .after_equivalent
      (on_applied_tx .after_equivalent scenario_plugin scenario_trace) scenario_trace
      (by decide)⟩


/-! ## Lemmas on message assembly -/

theorem build_message_loop_ok (chain : controller) (block : block_state)
    (tx_id : transaction_id_type) (dec : action → variant) (l : List sequenced_action)
    (msg : message)
    (h : ∀ a ∈ l, deserialize_action_data chain a.act = .ok (dec a.act)) :
    build_message_loop chain block tx_id msg l
      = .ok { actions := msg.actions ++ l.map (fun a =>
          action_notify.make a tx_id (dec a.act) block.block.timestamp block.block.block_num) } := by
  induction l generalizing msg with
  | nil => simp [build_message_loop]
  | cons it rest ih =>
    have h1 := h it (List.mem_cons_self _ _)
    rw [build_message_loop, h1]
    simp only []
    rw [ih _ (fun a ha => h a (List.mem_cons_of_mem _ ha))]
    simp

theorem on_accepted_block_loop_ok (chain : controller) (my : notify_plugin_impl)
    (block : block_state) (dec : action → variant) (trxs : List transaction_receipt)
    (msg : message)
    (h : ∀ trx ∈ trxs, ∀ a ∈ action_queue_type.equal_range my.action_queue trx.resolve_id,
      deserialize_action_data chain a.act = .ok (dec a.act)) :
    on_accepted_block_loop chain my block msg trxs
      = .ok { actions := msg.actions ++ trxs.flatMap (fun trx =>
          (action_queue_type.equal_range my.action_queue trx.resolve_id).map (fun a =>
            action_notify.make a trx.resolve_id (dec a.act) block.block.timestamp
              block.block.block_num)) } := by
  induction trxs generalizing msg with
  | nil => simp [on_accepted_block_loop]
  | cons trx rest ih =>
    have hrest := fun m => ih m (fun t ht => h t (List.mem_cons_of_mem _ ht))
    rw [on_accepted_block_loop]
    by_cases hc : action_queue_type.count my.action_queue trx.resolve_id ≠ 0
    · rw [if_pos hc, build_message,
        build_message_loop_ok chain block _ dec _ msg (h trx (List.mem_cons_self _ _))]
      simp only []
      rw [hrest]
      simp
    · rw [if_neg hc, hrest]
      have hnil : action_queue_type.equal_range my.action_queue trx.resolve_id = [] :=
        equal_range_eq_nil_of_count _ _ (not_not.mp hc)
      simp [hnil]

theorem build_message_loop_error (chain : controller) (block : block_state)
    (tx_id : transaction_id_type) (l : List sequenced_action) (msg : message)
    (h : ∃ a ∈ l, ∃ e, deserialize_action_data chain a.act = .error e) :
    ∃ a ∈ l, ∃ e, deserialize_action_data chain a.act = .error e ∧
      build_message_loop chain block tx_id msg l = .error e := by
  induction l generalizing msg with
  | nil => simp at h
  | cons it rest ih =>
    rw [build_message_loop]
    cases hd : deserialize_action_data chain it.act with
    | error e => exact ⟨it, List.mem_cons_self _ _, e, hd, rfl⟩
    | ok v =>
      simp only []
      obtain ⟨a, ha, e, he⟩ := h
      rcases List.mem_cons.mp ha with rfl | hmem
      · rw [hd] at he
        cases he
      · obtain ⟨a2, ha2, e2, he2, hb⟩ := ih _ ⟨a, hmem, e, he⟩
        exact ⟨a2, List.mem_cons_of_mem _ ha2, e2, he2, hb⟩

theorem build_message_loop_error_inv (chain : controller) (block : block_state)
    (tx_id : transaction_id_type) (l : List sequenced_action) (msg : message) (e : fc_exception)
    (h : build_message_loop chain block tx_id msg l = .error e) :
    ∃ a ∈ l, deserialize_action_data chain a.act = .error e := by
  induction l generalizing msg with
  | nil => simp [build_message_loop] at h
  | cons it rest ih =>
    rw [build_message_loop] at h
    cases hd : deserialize_action_data chain it.act with
    | error e2 =>
      rw [hd] at h
      simp only [Except.error.injEq] at h
      exact ⟨it, List.mem_cons_self _ _, by rw [hd, h]⟩
    | ok v =>
      rw [hd] at h
      obtain ⟨a, ha, he⟩ := ih _ h
      exact ⟨a, List.mem_cons_of_mem _ ha, he⟩

theorem on_accepted_block_loop_error (chain : controller) (my : notify_plugin_impl)
    (block : block_state) (trxs : List transaction_receipt) (msg : message)
    (h : ∃ trx ∈ trxs, ∃ a ∈ action_queue_type.equal_range my.action_queue trx.resolve_id,
      ∃ e, deserialize_action_data chain a.act = .error e) :
    ∃ trx ∈ trxs, ∃ a ∈ action_queue_type.equal_range my.action_queue trx.resolve_id,
      ∃ e, deserialize_action_data chain a.act = .error e ∧
        on_accepted_block_loop chain my block msg trxs = .error e := by
  induction trxs generalizing msg with
  | nil => simp at h
  | cons trx rest ih =>
    rw [on_accepted_block_loop]
    by_cases hc : action_queue_type.count my.action_queue trx.resolve_id ≠ 0
    · rw [if_pos hc, build_message]
      cases hb : build_message_loop chain block trx.resolve_id msg
          (action_queue_type.equal_range my.action_queue trx.resolve_id) with
      | error e =>
        obtain ⟨a, ha, he⟩ := build_message_loop_error_inv chain block trx.resolve_id _ msg e hb
        exact ⟨trx, List.mem_cons_self _ _, a, ha, e, he, rfl⟩
      | ok msg1 =>
        simp only []
        obtain ⟨t, ht, a, ha, e, he⟩ := h
        rcases List.mem_cons.mp ht with rfl | hmem
        · obtain ⟨a2, ha2, e2, he2, hb2⟩ :=
            build_message_loop_error chain block t.resolve_id _ msg ⟨a, ha, e, he⟩
          rw [hb] at hb2
          cases hb2
        · obtain ⟨t2, ht2, a2, ha2, e2, he2, hl⟩ := ih msg1 ⟨t, hmem, a, ha, e, he⟩
          exact ⟨t2, List.mem_cons_of_mem _ ht2, a2, ha2, e2, he2, hl⟩
    · rw [if_neg hc]
      have hnil : action_queue_type.equal_range my.action_queue trx.resolve_id = [] :=
        equal_range_eq_nil_of_count _ _ (not_not.mp hc)
      obtain ⟨t, ht, a, ha, e, he⟩ := h
      rcases List.mem_cons.mp ht with rfl | hmem
      · rw [hnil] at ha
        simp at ha
      · obtain ⟨t2, ht2, a2, ha2, e2, he2, hl⟩ := ih msg ⟨t, hmem, a, ha, e, he⟩
        exact ⟨t2, List.mem_cons_of_mem _ ht2, a2, ha2, e2, he2, hl⟩


/-! ## The accepted-block handler (C5, C6, C7) -/

theorem on_accepted_block_of_stale (chain : controller) (now now_send : time_point)
    (my : notify_plugin_impl) (block : block_state)
    (h : ¬ (my.age_limit = -1 ∨ now - block.block.timestamp < seconds my.age_limit)) :
    on_accepted_block chain now now_send my block = (.ok (), { my with action_queue := [] }) := by
  unfold on_accepted_block
  simp only [h, if_false, action_queue_type.clear]

theorem on_accepted_block_of_ok (chain : controller) (now now_send : time_point)
    (my : notify_plugin_impl) (block : block_state) (msg : message)
    (h : my.age_limit = -1 ∨ now - block.block.timestamp < seconds my.age_limit)
    (hl : on_accepted_block_loop chain my block { actions := [] } block.block.transactions
      = .ok msg) :
    on_accepted_block chain now now_send my block
      = (.ok (), { (if msg.actions.length > 0 then send_message now_send my msg else my) with action_queue := [] }) := by
  unfold on_accepted_block
  simp only [h, if_true, hl, action_queue_type.clear]

theorem on_accepted_block_of_error (chain : controller) (now now_send : time_point)
    (my : notify_plugin_impl) (block : block_state) (e : fc_exception)
    (h : my.age_limit = -1 ∨ now - block.block.timestamp < seconds my.age_limit)
    (hl : on_accepted_block_loop chain my block { actions := [] } block.block.transactions
      = .error e) :
    on_accepted_block chain now now_send my block = (.error e, my) := by
  unfold on_accepted_block
  simp only [h, if_true, hl]

/-- Whenever `on_accepted_block` returns normally, the queue is empty. -/
theorem queue_empty_after_normal_return (chain : controller) (now now_send : time_point)
    (my : notify_plugin_impl) (block : block_state)
    (h : (on_accepted_block chain now now_send my block).1 = .ok ()) :
    (on_accepted_block chain now now_send my block).2.action_queue = [] := by
  by_cases hage : my.age_limit = -1 ∨ now - block.block.timestamp < seconds my.age_limit
  · cases hl : on_accepted_block_loop chain my block { actions := [] } block.block.transactions with
    | error e =>
      rw [on_accepted_block_of_error chain now now_send my block e hage hl] at h
      cases h
    | ok msg =>
      rw [on_accepted_block_of_ok chain now now_send my block msg hage hl]
  · rw [on_accepted_block_of_stale chain now now_send my block hage]

/-- C5 (failing input): the queue holds the `transfer` action of transaction 7,
the accepted block is 5 seconds old (limit 60) and lists transaction 7, and no
ABI is available for `tokenaccount`. The handler is left by the
`assert_exception` of `deserialize_action_data` and the queue still holds the
entry: it has not been cleared. -/
theorem queue_kept_on_decode_failure :
    on_accepted_block no_abi_chain scenario_now scenario_now queued_plugin fresh_block
      = (.error .assert_exception, queued_plugin) ∧
    queued_plugin.action_queue
      = [(7, { act := transfer_action, seq_num := 0, receiver := tokenaccount })] :=
  ⟨by rfl, by rfl⟩

/-- C6: with a non-negative age limit `L` and a block whose age
`now - timestamp` is at least `L` seconds, `on_accepted_block` returns normally,
posts no job to the HTTP client (which is unchanged) and leaves the queue
empty, whatever the queue held. -/
theorem no_job_for_stale_block (chain : controller) (now now_send : time_point)
    (my : notify_plugin_impl) (block : block_state) (L : Int)
    (hL : my.age_limit = L) (hnonneg : 0 ≤ L)
    (hage : seconds L ≤ now - block.block.timestamp) :
    (on_accepted_block chain now now_send my block).1 = .ok () ∧
    (on_accepted_block chain now now_send my block).2.httpc = my.httpc ∧
    (on_accepted_block chain now now_send my block).2.action_queue = [] := by
  have h : ¬ (my.age_limit = -1 ∨ now - block.block.timestamp < seconds my.age_limit) := by
    rw [hL]
    intro hc
    rcases hc with h1 | h2
    · omega
    · exact absurd h2 (not_lt.mpr hage)
  rw [on_accepted_block_of_stale chain now now_send my block h]
  exact ⟨rfl, rfl, rfl⟩

/-- Witness of C6, the scenario: the block `B2` is 120 seconds old, the limit
is 60 seconds and the queue holds the matching `transfer` action of the
transaction in the block; no job is posted and the queue is empty afterwards. -/
theorem no_job_for_stale_block_scenario :
    queued_plugin.action_queue ≠ [] ∧
    scenario_now - stale_block.block.timestamp = seconds 120 ∧
    (on_accepted_block scenario_chain scenario_now scenario_now queued_plugin stale_block).1
      = .ok () ∧
    (on_accepted_block scenario_chain scenario_now scenario_now queued_plugin stale_block).2.httpc
      = { ioc := [], retry := true } ∧
    (on_accepted_block scenario_chain scenario_now scenario_now queued_plugin
      stale_block).2.action_queue = [] :=
  ⟨by decide, by decide,
    no_job_for_stale_block scenario_chain scenario_now scenario_now queued_plugin stale_block 60
      (by rfl) (by decide) (by decide)⟩


theorem flatMap_ne_nil_of_count (my : notify_plugin_impl) (trxs : List transaction_receipt)
    (f : transaction_id_type → sequenced_action → action_notify)
    (h : ∃ trx ∈ trxs, action_queue_type.count my.action_queue trx.resolve_id ≠ 0) :
    trxs.flatMap (fun trx =>
      (action_queue_type.equal_range my.action_queue trx.resolve_id).map (f trx.resolve_id))
      ≠ [] := by
  obtain ⟨trx, hmem, hc⟩ := h
  intro hnil
  rw [List.flatMap_eq_nil_iff] at hnil
  have h1 := hnil trx hmem
  rw [List.map_eq_nil_iff] at h1
  exact hc (by unfold action_queue_type.count; rw [h1]; rfl)

/-- There is a function that gives, for every action that
`deserialize_action_data` decodes, the payload it returns. -/
theorem exists_decoder (chain : controller) :
    ∃ dec : action → variant, ∀ a v, deserialize_action_data chain a = .ok v → dec a = v :=
  ⟨fun a => match deserialize_action_data chain a with
    | .ok v => v
    | .error _ => "", by
    intro a v h
    simp only [h]⟩

/-- C7 as stated fails: the age limit is -1, the block lists transaction 7,
whose only queued action (`tokenaccount::transfer`) decodes, and transaction 8,
whose queued action has no ABI. The handler is left by the exception and no
job has been posted. -/
theorem no_job_when_other_transaction_fails_to_decode :
    two_tx_plugin.age_limit = -1 ∧
    ({ trx := .trx_id 7 } : transaction_receipt) ∈ two_tx_block.block.transactions ∧
    action_queue_type.equal_range two_tx_plugin.action_queue 7
      = [{ act := transfer_action, seq_num := 0, receiver := tokenaccount }] ∧
    deserialize_action_data scenario_chain transfer_action = .ok "transfer_args" ∧
    (on_accepted_block scenario_chain scenario_now scenario_now two_tx_plugin two_tx_block).1
      = .error .assert_exception ∧
    (on_accepted_block scenario_chain scenario_now scenario_now two_tx_plugin
      two_tx_block).2.httpc.ioc = [] :=
  ⟨by rfl, by decide, by decide, by rfl, by rfl, by rfl⟩

/-- C7 (amended): when the age limit is -1, for a block of any age that lists
at least one transaction with queued actions, and provided every queued action
of every transaction listed in the block decodes, `on_accepted_block` returns
normally and posts exactly one job, whose destination is the configured
receive URL and whose message is not empty. -/
theorem job_posted_without_age_limit (chain : controller) (now now_send : time_point)
    (my : notify_plugin_impl) (block : block_state)
    (hlimit : my.age_limit = -1)
    (hex : ∃ trx ∈ block.block.transactions,
      action_queue_type.count my.action_queue trx.resolve_id ≠ 0)
    (hdec : ∀ trx ∈ block.block.transactions,
      ∀ a ∈ action_queue_type.equal_range my.action_queue trx.resolve_id,
        ∃ v, deserialize_action_data chain a.act = .ok v) :
    ∃ job : delivery_job, job.dest = my.receive_url ∧ job.payload.actions ≠ [] ∧
      (on_accepted_block chain now now_send my block).1 = .ok () ∧
      (on_accepted_block chain now now_send my block).2.httpc.ioc = my.httpc.ioc ++ [job] := by
  obtain ⟨dec, hdec2⟩ := exists_decoder chain
  have hd : ∀ trx ∈ block.block.transactions,
      ∀ a ∈ action_queue_type.equal_range my.action_queue trx.resolve_id,
        deserialize_action_data chain a.act = .ok (dec a.act) := by
    intro trx ht a ha
    obtain ⟨v, hv⟩ := hdec trx ht a ha
    rw [hv, hdec2 _ _ hv]
  have hl := on_accepted_block_loop_ok chain my block dec block.block.transactions
    { actions := [] } hd
  have hne := flatMap_ne_nil_of_count my block.block.transactions
    (fun id a => action_notify.make a id (dec a.act) block.block.timestamp
      block.block.block_num) hex
  have hr := on_accepted_block_of_ok chain now now_send my block _ (Or.inl hlimit) hl
  rw [List.nil_append] at hr
  rw [if_pos (List.length_pos.mpr hne)] at hr
  refine ⟨{ dest := my.receive_url, payload := _, deadline := now_send + http_timeout },
    rfl, hne, ?_, ?_⟩
  · rw [hr]
  · rw [hr]
    rfl

/-- Witness of C7 (amended): without age limit, the 120 seconds old block that
lists only transaction 7 gets a job for the receive URL. -/
theorem job_posted_without_age_limit_scenario :
    two_tx_plugin.age_limit = -1 ∧
    scenario_now - stale_block.block.timestamp = seconds 120 ∧
    ∃ job : delivery_job, job.dest = two_tx_plugin.receive_url ∧ job.payload.actions ≠ [] ∧
      (on_accepted_block scenario_chain scenario_now scenario_now two_tx_plugin stale_block).1
        = .ok () ∧
      (on_accepted_block scenario_chain scenario_now scenario_now two_tx_plugin
        stale_block).2.httpc.ioc = two_tx_plugin.httpc.ioc ++ [job] :=
  ⟨by rfl, by decide,
    job_posted_without_age_limit scenario_chain scenario_now scenario_now two_tx_plugin
      stale_block (by rfl) ⟨{ trx := .trx_id 7 }, by decide, by decide⟩
      (by
        intro trx ht a ha
        have ht2 : trx = { trx := .trx_id 7 } := by simpa [stale_block] using ht
        subst ht2
        have ha2 : a = { act := transfer_action, seq_num := 0, receiver := tokenaccount } := by
          have hq : action_queue_type.equal_range two_tx_plugin.action_queue
              (transaction_receipt.resolve_id { trx := .trx_id 7 })
              = [{ act := transfer_action, seq_num := 0, receiver := tokenaccount }] := by
            decide
          rw [hq] at ha
          simpa using ha
        subst ha2
        exact ⟨"transfer_args", by rfl⟩)⟩


/-! ## Decode failures and message content (C8, C9, C10) -/

/-- C8 as stated fails: the three actions of the scenario transaction are
queued, the block lists the transaction, `transfer` decodes and `other::noop`
has no ABI. The handler does not omit the one record and send the rest: it is
left by the exception of the failed decode, which reaches its caller, and no
job with the `transfer` record has been posted. -/
theorem decode_failure_reaches_caller :
    (action_queue_type.equal_range all_queued_plugin.action_queue 7).map
        (fun a => (a.act.account, a.act.name, a.seq_num))
      = [(tokenaccount, transfer, 0), (other, noop, 1), (other, unrelated, 2)] ∧
    deserialize_action_data scenario_chain transfer_action = .ok "transfer_args" ∧
    deserialize_action_data scenario_chain noop_action = .error .assert_exception ∧
    on_accepted_block scenario_chain scenario_now scenario_now all_queued_plugin fresh_block
      = (.error .assert_exception, all_queued_plugin) ∧
    all_queued_plugin.httpc.ioc = [] :=
  ⟨by decide, by rfl, by rfl, by rfl, by rfl⟩

/-- C8 (amended): when a block passes the age check and decoding fails for a
queued action of one of its transactions, `on_accepted_block` builds no message
for the block: it posts no job, and it is left by the exception of a failed
decode, which reaches its caller. -/
theorem decode_failure_aborts_message (chain : controller) (now now_send : time_point)
    (my : notify_plugin_impl) (block : block_state)
    (hage : my.age_limit = -1 ∨ now - block.block.timestamp < seconds my.age_limit)
    (hfail : ∃ trx ∈ block.block.transactions,
      ∃ a ∈ action_queue_type.equal_range my.action_queue trx.resolve_id,
        ∃ e, deserialize_action_data chain a.act = .error e) :
    ∃ trx ∈ block.block.transactions,
      ∃ a ∈ action_queue_type.equal_range my.action_queue trx.resolve_id,
        ∃ e, deserialize_action_data chain a.act = .error e ∧
          (on_accepted_block chain now now_send my block).1 = .error e ∧
          (on_accepted_block chain now now_send my block).2.httpc = my.httpc := by
  obtain ⟨trx, ht, a, ha, e, he, hl⟩ :=
    on_accepted_block_loop_error chain my block block.block.transactions { actions := [] } hfail
  refine ⟨trx, ht, a, ha, e, he, ?_, ?_⟩
  · rw [on_accepted_block_of_error chain now now_send my block e hage hl]
  · rw [on_accepted_block_of_error chain now now_send my block e hage hl]

/-- Witness of C8 (amended): the fresh block of the scenario with the three
queued actions, of which `other::noop` has no ABI. -/
theorem decode_failure_aborts_message_scenario :
    ∃ trx ∈ fresh_block.block.transactions,
      ∃ a ∈ action_queue_type.equal_range all_queued_plugin.action_queue trx.resolve_id,
        ∃ e, deserialize_action_data scenario_chain a.act = .error e ∧
          (on_accepted_block scenario_chain scenario_now scenario_now all_queued_plugin
            fresh_block).1 = .error e ∧
          (on_accepted_block scenario_chain scenario_now scenario_now all_queued_plugin
            fresh_block).2.httpc = all_queued_plugin.httpc :=
  decode_failure_aborts_message scenario_chain scenario_now scenario_now all_queued_plugin
    fresh_block (Or.inl (by rfl))
    ⟨{ trx := .trx_id 7 }, by decide,
      { act := noop_action, seq_num := 1, receiver := other }, by decide,
      .assert_exception, by rfl⟩

/-- C10: when the block passes the age check and every queued action of every
transaction listed in the block decodes (to `dec` of the action), the handler
returns normally, empties the queue, and the message it assembled is
`block_records`: for each listed transaction in turn, one record per queue
entry of that transaction, holding the transaction id, the account, name,
authorization list, receiver and sequence number of the entry, the decoded
payload, and the timestamp and number of the block. A non-empty message is
posted as one job to the receive URL. -/
theorem message_records_of_block (chain : controller) (now now_send : time_point)
    (my : notify_plugin_impl) (block : block_state) (dec : action → variant)
    (hage : my.age_limit = -1 ∨ now - block.block.timestamp < seconds my.age_limit)
    (hdec : ∀ trx ∈ block.block.transactions,
      ∀ a ∈ action_queue_type.equal_range my.action_queue trx.resolve_id,
        deserialize_action_data chain a.act = .ok (dec a.act)) :
    on_accepted_block_loop chain my block { actions := [] } block.block.transactions
      = .ok { actions := block_records my block dec } ∧
    on_accepted_block chain now now_send my block
      = (.ok (),
         { my with
           httpc :=
             if block_records my block dec = [] then my.httpc
             else my.httpc.post my.receive_url ⟨block_records my block dec⟩ (now_send + seconds 10),
           action_queue := [] }) := by
  have hl := on_accepted_block_loop_ok chain my block dec block.block.transactions
    { actions := [] } hdec
  rw [List.nil_append] at hl
  have hl2 : on_accepted_block_loop chain my block { actions := [] } block.block.transactions
      = .ok { actions := block_records my block dec } := hl
  refine ⟨hl2, ?_⟩
  rw [on_accepted_block_of_ok chain now now_send my block _ hage hl2]
  by_cases hnil : block_records my block dec = []
  · rw [if_pos hnil]
    simp only [hnil, List.length_nil, gt_iff_lt, lt_self_iff_false, if_false]
  · rw [if_neg hnil, if_pos (List.length_pos.mpr hnil)]
    rfl

/-- Witness of C10, the scenario: the block `B` is 5 seconds old, the limit is
60 seconds and `B` lists the transaction `T`; the posted message has one
record, with receiver `tokenaccount`, action `transfer`, sequence number 0 and
the number of `B`. -/
theorem message_records_scenario :
    queued_plugin.age_limit = 60 ∧
    scenario_now - fresh_block.block.timestamp = seconds 5 ∧
    on_accepted_block scenario_chain scenario_now scenario_now queued_plugin fresh_block
      = (.ok (),
         { queued_plugin with
           httpc :=
             { ioc :=
                 [{ dest := queued_plugin.receive_url,
                    payload :=
                      { actions :=
                          [{ tx_id := 7,
                             account := tokenaccount,
                             name := transfer,
                             receiver := tokenaccount,
                             seq_num := 0,
                             block_time := fresh_block.block.timestamp,
                             block_num := fresh_block.block.block_num,
                             authorization := transfer_action.authorization,
                             action_data := "transfer_args" }] },
                    deadline := scenario_now + seconds 10 }],
               retry := true },
           action_queue := [] }) :=
  ⟨by rfl, by decide,
    (message_records_of_block scenario_chain scenario_now scenario_now queued_plugin fresh_block
      (fun _ => "transfer_args") (Or.inr (by decide))
      (by
        intro trx ht a ha
        have ht2 : trx = { trx := .trx_id 7 } := by simpa [fresh_block] using ht
        subst ht2
        have ha2 : a = { act := transfer_action, seq_num := 0, receiver := tokenaccount } := by
          have hq : action_queue_type.equal_range queued_plugin.action_queue
              (transaction_receipt.resolve_id { trx := .trx_id 7 })
              = [{ act := transfer_action, seq_num := 0, receiver := tokenaccount }] := by
            decide
          rw [hq] at ha
          simpa using ha
        subst ha2
        rfl)).2⟩


theorem captured_seq_ge (my : notify_plugin_impl) (tx_id : transaction_id_type) (i : Nat)
    (l : List action_trace) (hfit : i + l.length ≤ action_seq_modulus) :
    ∀ e ∈ (captured my tx_id i l).map Prod.snd, i ≤ e.seq_num := by
  intro e he
  obtain ⟨k, hk, _, hek⟩ := (mem_captured_iff my tx_id i l e).mp he
  rw [hek]
  simp only [queued_action]
  rw [Nat.mod_eq_of_lt (by omega)]
  omega

theorem captured_seq_sorted (my : notify_plugin_impl) (tx_id : transaction_id_type) (i : Nat)
    (l : List action_trace) (hfit : i + l.length ≤ action_seq_modulus) :
    List.Pairwise (fun a b => a < b)
      (((captured my tx_id i l).map Prod.snd).map sequenced_action.seq_num) := by
  induction l generalizing i with
  | nil => simp [captured]
  | cons node rest ih =>
    have hlen : i + 1 + rest.length ≤ action_seq_modulus := by
      simp only [List.length_cons] at hfit
      omega
    have hrest := ih (i + 1) hlen
    have hge := captured_seq_ge my tx_id (i + 1) rest hlen
    have hi : i % action_seq_modulus = i := Nat.mod_eq_of_lt (by
      simp only [List.length_cons] at hfit
      omega)
    simp only [captured, List.map_append]
    rw [List.pairwise_append]
    refine ⟨?_, hrest, ?_⟩
    · split_ifs <;> simp
    · intro a ha b hb
      obtain ⟨e, he, rfl⟩ := List.mem_map.mp hb
      have hle := hge e he
      split_ifs at ha
      · simp only [List.map_cons, List.map_nil, List.mem_singleton, queued_action] at ha
        rw [ha, hi]
        show i < e.seq_num
        omega
      · simp at ha

theorem on_accepted_block_job_inv (chain : controller) (now now_send : time_point)
    (my : notify_plugin_impl) (block : block_state) (job : delivery_job)
    (h : (on_accepted_block chain now now_send my block).2.httpc.ioc = my.httpc.ioc ++ [job]) :
    on_accepted_block_loop chain my block { actions := [] } block.block.transactions
      = .ok job.payload := by
  by_cases hage : my.age_limit = -1 ∨ now - block.block.timestamp < seconds my.age_limit
  · cases hl : on_accepted_block_loop chain my block { actions := [] } block.block.transactions with
    | error e =>
      rw [on_accepted_block_of_error chain now now_send my block e hage hl] at h
      simp at h
    | ok msg =>
      rw [on_accepted_block_of_ok chain now now_send my block msg hage hl] at h
      by_cases hlen : msg.actions.length > 0
      · rw [if_pos hlen] at h
        simp only [send_message, http_async_client.post, List.append_cancel_left_eq,
          List.cons.injEq, and_true] at h
        rw [← h]
      · rw [if_neg hlen] at h
        simp at h
  · rw [on_accepted_block_of_stale chain now now_send my block hage] at h
    simp at h

theorem on_accepted_block_loop_ok_inv (chain : controller) (my : notify_plugin_impl)
    (block : block_state) (msg : message)
    (h : on_accepted_block_loop chain my block { actions := [] } block.block.transactions
      = .ok msg) :
    ∃ dec : action → variant, msg.actions = block_records my block dec := by
  obtain ⟨dec, hdec⟩ := exists_decoder chain
  refine ⟨dec, ?_⟩
  have hall : ∀ trx ∈ block.block.transactions,
      ∀ a ∈ action_queue_type.equal_range my.action_queue trx.resolve_id,
        deserialize_action_data chain a.act = .ok (dec a.act) := by
    intro trx ht a ha
    cases hd : deserialize_action_data chain a.act with
    | ok v => rw [hdec _ _ hd]
    | error e =>
      obtain ⟨_, _, _, _, e2, _, hl⟩ :=
        on_accepted_block_loop_error chain my block block.block.transactions { actions := [] }
          ⟨trx, ht, a, ha, e, hd⟩
      rw [h] at hl
      cases hl
  have hl := on_accepted_block_loop_ok chain my block dec block.block.transactions
    { actions := [] } hall
  rw [h, List.nil_append] at hl
  have := congrArg (fun r => match r with
    | Except.ok m => m.actions
    | Except.error _ => []) hl
  exact this

theorem block_records_keys (my : notify_plugin_impl) (block : block_state)
    (dec : action → variant) :
    (block_records my block dec).map (fun r => (r.tx_id, r.seq_num))
      = block.block.transactions.flatMap (fun trx =>
          (action_queue_type.equal_range my.action_queue trx.resolve_id).map
            (fun a => (trx.resolve_id, a.seq_num))) := by
  unfold block_records
  rw [List.map_flatMap]
  simp only [List.map_map]
  rfl

/-- C9 as stated fails: with a container that inserts an element before the
elements with an equivalent key (as libstdc++ does), the two `transfer` actions
of one transaction are queued with sequence numbers 0 and 1 and the message
for the block lists them in the order 1, 0. -/
theorem records_not_in_seq_order :
    (on_accepted_block scenario_chain scenario_now scenario_now
        (on_applied_tx .before_equivalent scenario_plugin double_transfer_trace)
        double_transfer_block).2.httpc.ioc.map
      (fun job => job.payload.actions.map (fun r => (r.tx_id, r.seq_num)))
      = [[(9, 1), (9, 0)]] := by
  decide

/-- C9 (amended): the records of a posted message appear in the order of the
transaction list of the block, and the records of one transaction in the order
in which `equal_range` yields its queue entries. With a container that keeps
elements with an equivalent key in insertion order, the entries that
`on_applied_tx` queues for a transaction of at most `2^32` trace nodes are in
increasing sequence-number order. -/
theorem records_in_block_and_queue_order :
    (∀ (chain : controller) (now now_send : time_point) (my : notify_plugin_impl)
        (block : block_state) (job : delivery_job),
      (on_accepted_block chain now now_send my block).2.httpc.ioc = my.httpc.ioc ++ [job] →
        job.payload.actions.map (fun r => (r.tx_id, r.seq_num))
          = block.block.transactions.flatMap (fun trx =>
              (action_queue_type.equal_range my.action_queue trx.resolve_id).map
                (fun a => (trx.resolve_id, a.seq_num)))) ∧
    (∀ (my : notify_plugin_impl) (trace : transaction_trace),
      action_queue_type.count my.action_queue trace.id = 0 →
      (preorder_forest trace.action_traces).length ≤ 2 ^ 32 →
        List.Pairwise (fun a b => a < b)
          ((action_queue_type.equal_range
            (on_applied_tx .after_equivalent my trace).action_queue trace.id).map
              sequenced_action.seq_num)) := by
  constructor
  · intro chain now now_send my block job h
    obtain ⟨dec, hdec⟩ := on_accepted_block_loop_ok_inv chain my block job.payload
      (on_accepted_block_job_inv chain now now_send my block job h)
    rw [hdec, block_records_keys]
  · intro my trace hc hfit
    rw [equal_range_on_applied_tx .after_equivalent my trace hc]
    exact captured_seq_sorted my trace.id 0 _ (by
      unfold action_seq_modulus
      omega)

/-- Witness of C9 (amended), the scenario: the message posted for the block `B`
lists the single queued record of `T`, and the entries queued for `T` are in
increasing sequence-number order. -/
theorem records_in_block_and_queue_order_scenario :
    [((7 : transaction_id_type), (0 : action_seq_type))]
      = fresh_block.block.transactions.flatMap (fun trx =>
          (action_queue_type.equal_range queued_plugin.action_queue trx.resolve_id).map
            (fun a => (trx.resolve_id, a.seq_num))) ∧
    List.Pairwise (fun a b => a < b)
      ((action_queue_type.equal_range
        (on_applied_tx .after_equivalent unlimited_plugin scenario_trace).action_queue
          scenario_trace.id).map sequenced_action.seq_num) :=
  ⟨records_in_block_and_queue_order.1 scenario_chain scenario_now scenario_now queued_plugin
      fresh_block
      { dest := queued_plugin.receive_url,
        payload :=
          { actions :=
              [{ tx_id := 7,
                 account := tokenaccount,
                 name := transfer,
                 receiver := tokenaccount,
                 seq_num := 0,
                 block_time := fresh_block.block.timestamp,
                 block_num := 42,
                 authorization := transfer_action.authorization,
                 action_data := "transfer_args" }] },
        deadline := scenario_now + seconds 10 }
      (by rfl),
    records_in_block_and_queue_order.2 unlimited_plugin scenario_trace (by decide) (by decide)⟩


/-! ## The delivery worker (C11, C12, C18) -/

theorem post_sync_no_retry (sync_client : http_client) (c : http_async_client) (calls : Nat)
    (dest : url) (payload : message) (deadline : time_point) (h : c.retry = false) :
    http_async_client.post_sync sync_client c calls dest payload deadline
      = { result := .ok (), client := { c with retry := true }, calls := calls + 1 } := by
  rw [http_async_client.post_sync]
  cases hs : sync_client calls dest payload deadline with
  | ok u => simp
  | error e =>
    cases e with
    | assert_exception => simp [h]
    | eof_exception => simp
    | other_exception code => simp [FC_CAPTURE_AND_LOG]

theorem post_sync_with_retry (sync_client : http_client) (c : http_async_client) (calls : Nat)
    (dest : url) (payload : message) (deadline : time_point) (h : c.retry = true) :
    http_async_client.post_sync sync_client c calls dest payload deadline
      = { result := .ok (), client := { c with retry := true },
          calls := match sync_client calls dest payload deadline with
            | .error .assert_exception => calls + 2
            | _ => calls + 1 } := by
  rw [http_async_client.post_sync]
  cases hs : sync_client calls dest payload deadline with
  | ok u => simp
  | error e =>
    cases e with
    | assert_exception =>
      simp only [h, dite_true]
      rw [post_sync_no_retry sync_client _ (calls + 1) dest payload deadline rfl]
    | eof_exception => simp
    | other_exception code => simp [FC_CAPTURE_AND_LOG]

theorem post_sync_result_ok (sync_client : http_client) (c : http_async_client) (calls : Nat)
    (dest : url) (payload : message) (deadline : time_point) :
    (http_async_client.post_sync sync_client c calls dest payload deadline).result = .ok () ∧
    (http_async_client.post_sync sync_client c calls dest payload deadline).client.retry
      = true := by
  cases h : c.retry with
  | true => rw [post_sync_with_retry sync_client c calls dest payload deadline h]; exact ⟨rfl, rfl⟩
  | false => rw [post_sync_no_retry sync_client c calls dest payload deadline h]; exact ⟨rfl, rfl⟩

/-- C11: for a job started with the retry flag set and for every sequence of
outcomes of the underlying HTTP POST, `post_sync` calls the `http_client`
exactly twice when the first call fails with `fc::assert_exception`, and
exactly once when the first call succeeds, fails with `fc::eof_exception` or
fails with any other error; there is never a third call. -/
theorem post_sync_attempts (sync_client : http_client) (c : http_async_client) (calls : Nat)
    (dest : url) (payload : message) (deadline : time_point) (h : c.retry = true) :
    (sync_client calls dest payload deadline = .error .assert_exception →
      (http_async_client.post_sync sync_client c calls dest payload deadline).calls
        = calls + 2) ∧
    (sync_client calls dest payload deadline ≠ .error .assert_exception →
      (http_async_client.post_sync sync_client c calls dest payload deadline).calls
        = calls + 1) := by
  rw [post_sync_with_retry sync_client c calls dest payload deadline h]
  constructor
  · intro h1
    simp only [h1]
  · intro h1
    cases hs : sync_client calls dest payload deadline with
    | ok u => rfl
    | error e =>
      cases e with
      | assert_exception => exact absurd hs h1
      | eof_exception => rfl
      | other_exception code => rfl

/-- C12: whatever the outcomes of the underlying HTTP POST attempts (success,
`fc::eof_exception`, `fc::assert_exception`, any other error) and whatever the
retry flag, `post_sync` returns normally: no failure of a job leaves it. -/
theorem post_sync_returns_normally (sync_client : http_client) (c : http_async_client)
    (calls : Nat) (dest : url) (payload : message) (deadline : time_point) :
    (http_async_client.post_sync sync_client c calls dest payload deadline).result = .ok () :=
  (post_sync_result_ok sync_client c calls dest payload deadline).1

theorem retry_at_starts_all_true (sync_client : http_client) (c : http_async_client)
    (calls : Nat) (jobs : List delivery_job) (h : c.retry = true) :
    http_async_client.retry_at_starts sync_client c calls jobs
      = List.replicate jobs.length true := by
  induction jobs generalizing c calls with
  | nil => rfl
  | cons job rest ih =>
    rw [http_async_client.retry_at_starts]
    simp only [List.length_cons, List.replicate_succ, h]
    rw [ih _ _ (post_sync_result_ok sync_client c calls job.dest job.payload job.deadline).2]

theorem run_returns_normally (sync_client : http_client) (c : http_async_client)
    (calls : Nat) (jobs : List delivery_job) :
    (http_async_client.run sync_client c calls jobs).result = .ok () ∧
    (http_async_client.run sync_client c calls jobs).client.ioc = [] := by
  induction jobs generalizing c calls with
  | nil => exact ⟨rfl, rfl⟩
  | cons job rest ih =>
    rw [http_async_client.run]
    simp only [(post_sync_result_ok sync_client c calls job.dest job.payload job.deadline).1]
    exact ih _ _

/-- C18: the retry flag is true whenever a job starts. It is true in a newly
constructed client; for every outcome of the HTTP attempts, including a retry
that fails, and whatever the flag was, it is true when `post_sync` returns; and
in every run of the worker from a new client each job starts with the flag
true. -/
theorem retry_true_at_job_start :
    http_async_client.init.retry = true ∧
    (∀ (sync_client : http_client) (c : http_async_client) (calls : Nat) (dest : url)
        (payload : message) (deadline : time_point),
      (http_async_client.post_sync sync_client c calls dest payload deadline).client.retry
        = true) ∧
    (∀ (sync_client : http_client) (calls : Nat) (jobs : List delivery_job),
      http_async_client.retry_at_starts sync_client http_async_client.init calls jobs
        = List.replicate jobs.length true) :=
  ⟨rfl, fun sync_client c calls dest payload deadline =>
      (post_sync_result_ok sync_client c calls dest payload deadline).2,
    fun sync_client calls jobs =>
      retry_at_starts_all_true sync_client http_async_client.init calls jobs rfl⟩

/-- Witness of C11: from a new client (retry flag set), a job whose every
attempt fails with `fc::assert_exception` is attempted exactly twice, and a job
whose first attempt succeeds exactly once. -/
theorem post_sync_attempts_scenario :
    http_async_client.init.retry = true ∧
    (http_async_client.post_sync always_assert_client http_async_client.init 0
        scenario_plugin.receive_url { actions := [] } scenario_now).calls = 0 + 2 ∧
    (http_async_client.post_sync always_ok_client http_async_client.init 0
        scenario_plugin.receive_url { actions := [] } scenario_now).calls = 0 + 1 :=
  ⟨rfl,
    (post_sync_attempts always_assert_client http_async_client.init 0
      scenario_plugin.receive_url { actions := [] } scenario_now rfl).1 rfl,
    (post_sync_attempts always_ok_client http_async_client.init 0
      scenario_plugin.receive_url { actions := [] } scenario_now rfl).2
      (by intro h; cases h)⟩

/-! ## Age limit, jobs and frame conditions (C13, C17, C19, C20) -/

/-- C13 (failing input): the age limit is -2, the queue holds the `transfer`
action of transaction 7, which decodes, and the accepted block is 5 seconds old
and lists transaction 7. The handler posts no job and clears the queue: the
negative limit -2 is applied as a limit, only -1 switches the age check off. -/
theorem negative_limit_is_applied :
    negative_limit_plugin.age_limit = -2 ∧
    action_queue_type.equal_range negative_limit_plugin.action_queue 7
      = [{ act := transfer_action, seq_num := 0, receiver := tokenaccount }] ∧
    deserialize_action_data scenario_chain transfer_action = .ok "transfer_args" ∧
    scenario_now - fresh_block.block.timestamp = seconds 5 ∧
    on_accepted_block scenario_chain scenario_now scenario_now negative_limit_plugin fresh_block
      = (.ok (), { negative_limit_plugin with action_queue := [] }) ∧
    negative_limit_plugin.httpc.ioc = [] :=
  ⟨by rfl, by decide, by rfl, by decide, by rfl, by rfl⟩

theorem on_accepted_block_loop_no_entries (chain : controller) (my : notify_plugin_impl)
    (block : block_state) (msg : message) (trxs : List transaction_receipt)
    (h : ∀ trx ∈ trxs, action_queue_type.count my.action_queue trx.resolve_id = 0) :
    on_accepted_block_loop chain my block msg trxs = .ok msg := by
  induction trxs with
  | nil => rfl
  | cons trx rest ih =>
    rw [on_accepted_block_loop]
    have h0 := h trx (List.mem_cons_self _ _)
    rw [if_neg (by simp [h0])]
    exact ih (fun t ht => h t (List.mem_cons_of_mem _ ht))

theorem on_accepted_block_jobs (chain : controller) (now now_send : time_point)
    (my : notify_plugin_impl) (block : block_state) :
    (on_accepted_block chain now now_send my block).2.httpc.ioc = my.httpc.ioc ∨
    ∃ msg : message, msg.actions ≠ [] ∧
      on_accepted_block_loop chain my block { actions := [] } block.block.transactions
        = .ok msg ∧
      (on_accepted_block chain now now_send my block).2.httpc.ioc
        = my.httpc.ioc ++
          [{ dest := my.receive_url, payload := msg, deadline := now_send + seconds 10 }] := by
  by_cases hage : my.age_limit = -1 ∨ now - block.block.timestamp < seconds my.age_limit
  · cases hl : on_accepted_block_loop chain my block { actions := [] } block.block.transactions with
    | error e =>
      left
      rw [on_accepted_block_of_error chain now now_send my block e hage hl]
    | ok msg =>
      rw [on_accepted_block_of_ok chain now now_send my block msg hage hl]
      by_cases hlen : msg.actions.length > 0
      · right
        rw [if_pos hlen]
        exact ⟨msg, List.length_pos.mp hlen, rfl, rfl⟩
      · left
        rw [if_neg hlen]
  · left
    rw [on_accepted_block_of_stale chain now now_send my block hage]

/-- C17: an `on_accepted_block` event either leaves the posted jobs as they
were or adds exactly one job, whose destination is the configured receive URL,
whose message is not empty and whose deadline is the current time (read when
sending) plus 10 seconds; and no job is added when none of the transactions of
the block has an entry in the queue. -/
theorem at_most_one_job_per_block (chain : controller) (now now_send : time_point)
    (my : notify_plugin_impl) (block : block_state) :
    ((on_accepted_block chain now now_send my block).2.httpc.ioc = my.httpc.ioc ∨
      ∃ msg : message, msg.actions ≠ [] ∧
        (on_accepted_block chain now now_send my block).2.httpc.ioc
          = my.httpc.ioc ++
            [{ dest := my.receive_url, payload := msg, deadline := now_send + seconds 10 }]) ∧
    ((∀ trx ∈ block.block.transactions,
        action_queue_type.count my.action_queue trx.resolve_id = 0) →
      (on_accepted_block chain now now_send my block).2.httpc.ioc = my.httpc.ioc) := by
  constructor
  · rcases on_accepted_block_jobs chain now now_send my block with h | ⟨msg, hne, _, h⟩
    · exact Or.inl h
    · exact Or.inr ⟨msg, hne, h⟩
  · intro hnone
    rcases on_accepted_block_jobs chain now now_send my block with h | ⟨msg, hne, hl, _⟩
    · exact h
    · rw [on_accepted_block_loop_no_entries chain my block _ _ hnone] at hl
      cases hl
      exact absurd rfl hne

/-- Witness of C17: the fresh block of the scenario accepted while the queue
is empty adds no job. -/
theorem at_most_one_job_per_block_scenario :
    (on_accepted_block scenario_chain scenario_now scenario_now scenario_plugin
      fresh_block).2.httpc.ioc = scenario_plugin.httpc.ioc :=
  (at_most_one_job_per_block scenario_chain scenario_now scenario_now scenario_plugin
    fresh_block).2 (by decide)

theorem mem_block_records (my : notify_plugin_impl) (block : block_state)
    (dec : action → variant) (r : action_notify) (h : r ∈ block_records my block dec) :
    ∃ trx ∈ block.block.transactions, r.tx_id = trx.resolve_id ∧
      ∃ a ∈ action_queue_type.equal_range my.action_queue trx.resolve_id,
        r.seq_num = a.seq_num ∧ r.receiver = a.receiver ∧ r.account = a.act.account ∧
          r.name = a.act.name := by
  unfold block_records at h
  rw [List.mem_flatMap] at h
  obtain ⟨trx, ht, hr⟩ := h
  rw [List.mem_map] at hr
  obtain ⟨a, ha, rfl⟩ := hr
  exact ⟨trx, ht, rfl, a, ha, rfl, rfl, rfl, rfl⟩

/-- C19: every record of a message posted by `on_accepted_block` has the id of
a transaction of the list of the accepted block (the id given directly or the
id of the packed transaction) and comes from a queue entry of that id, so no
entry of a transaction that the block does not list gets into the message; and
when the handler returns normally the queue is empty, so those entries are
discarded. -/
theorem records_only_of_listed_transactions (chain : controller) (now now_send : time_point)
    (my : notify_plugin_impl) (block : block_state) :
    (∀ job : delivery_job,
      (on_accepted_block chain now now_send my block).2.httpc.ioc = my.httpc.ioc ++ [job] →
      ∀ r ∈ job.payload.actions,
        ∃ trx ∈ block.block.transactions, r.tx_id = trx.resolve_id ∧
          ∃ a ∈ action_queue_type.equal_range my.action_queue trx.resolve_id,
            r.seq_num = a.seq_num ∧ r.receiver = a.receiver ∧ r.account = a.act.account ∧
              r.name = a.act.name) ∧
    ((on_accepted_block chain now now_send my block).1 = .ok () →
      (on_accepted_block chain now now_send my block).2.action_queue = []) := by
  constructor
  · intro job h r hr
    obtain ⟨dec, hdec⟩ := on_accepted_block_loop_ok_inv chain my block job.payload
      (on_accepted_block_job_inv chain now now_send my block job h)
    rw [hdec] at hr
    exact mem_block_records my block dec r hr
  · exact queue_empty_after_normal_return chain now now_send my block

/-- Witness of C19: without age limit the queue holds an entry of transaction 7
and one of transaction 8, and the accepted block lists transaction 7 only. The
posted message has the one record of transaction 7, and the queue is empty
afterwards. -/
theorem records_only_of_listed_transactions_scenario :
    (on_accepted_block scenario_chain scenario_now scenario_now two_tx_plugin
        stale_block).2.httpc.ioc.map
      (fun job => job.payload.actions.map (fun r => (r.tx_id, r.seq_num))) = [[(7, 0)]] ∧
    (∀ r ∈ ({ actions :=
                [{ tx_id := 7,
                   account := tokenaccount,
                   name := transfer,
                   receiver := tokenaccount,
                   seq_num := 0,
                   block_time := stale_block.block.timestamp,
                   block_num := stale_block.block.block_num,
                   authorization := transfer_action.authorization,
                   action_data := "transfer_args" }] } : message).actions,
      ∃ trx ∈ stale_block.block.transactions, r.tx_id = trx.resolve_id ∧
        ∃ a ∈ action_queue_type.equal_range two_tx_plugin.action_queue trx.resolve_id,
          r.seq_num = a.seq_num ∧ r.receiver = a.receiver ∧ r.account = a.act.account ∧
            r.name = a.act.name) ∧
    (on_accepted_block scenario_chain scenario_now scenario_now two_tx_plugin
      stale_block).2.action_queue = [] :=
  ⟨by decide,
    (records_only_of_listed_transactions scenario_chain scenario_now scenario_now two_tx_plugin
      stale_block).1
      { dest := two_tx_plugin.receive_url,
        payload :=
          { actions :=
              [{ tx_id := 7,
                 account := tokenaccount,
                 name := transfer,
                 receiver := tokenaccount,
                 seq_num := 0,
                 block_time := stale_block.block.timestamp,
                 block_num := stale_block.block.block_num,
                 authorization := transfer_action.authorization,
                 action_data := "transfer_args" }] },
        deadline := scenario_now + seconds 10 }
      (by rfl),
    (records_only_of_listed_transactions scenario_chain scenario_now scenario_now two_tx_plugin
      stale_block).2 (by rfl)⟩

theorem mem_insert_all (pos : insert_position) (q l : action_queue_type)
    (kv : transaction_id_type × sequenced_action) :
    kv ∈ action_queue_type.insert_all pos q l ↔ kv ∈ q ∨ kv ∈ l := by
  cases pos
  · simp [action_queue_type.insert_all]
  · simp only [action_queue_type.insert_all, List.mem_append, List.mem_reverse]
    exact Or.comm

/-- C20: `on_applied_tx` for a trace leaves the queue entries of every other
transaction id as they were, changes neither the rule set nor the age limit
(nor the receive URL or the HTTP client), and every element of the queue
afterwards was in the queue before or is keyed by the id of the trace. -/
theorem on_applied_tx_frame (pos : insert_position) (my : notify_plugin_impl)
    (trace : transaction_trace) :
    (∀ k : transaction_id_type, k ≠ trace.id →
      action_queue_type.equal_range (on_applied_tx pos my trace).action_queue k
        = action_queue_type.equal_range my.action_queue k) ∧
    (on_applied_tx pos my trace).filter_on = my.filter_on ∧
    (on_applied_tx pos my trace).age_limit = my.age_limit ∧
    (on_applied_tx pos my trace).receive_url = my.receive_url ∧
    (on_applied_tx pos my trace).httpc = my.httpc ∧
    (∀ kv ∈ (on_applied_tx pos my trace).action_queue,
      kv ∈ my.action_queue ∨ kv.1 = trace.id) := by
  by_cases h : action_queue_type.count my.action_queue trace.id = 0
  · rw [on_applied_tx_eq pos my trace h]
    refine ⟨?_, rfl, rfl, rfl, rfl, ?_⟩
    · intro k hk
      exact equal_range_insert_all_ne pos _ _ trace.id k (captured_map_fst my trace.id 0 _) hk
    · intro kv hkv
      rcases (mem_insert_all pos _ _ kv).mp hkv with h1 | h2
      · exact Or.inl h1
      · exact Or.inr (captured_map_fst my trace.id 0 _ kv h2)
  · rw [on_applied_tx_of_count_ne pos my trace h]
    exact ⟨fun _ _ => rfl, rfl, rfl, rfl, rfl, fun kv hkv => Or.inl hkv⟩

/-- Witness of C20: applying transaction 8 to the queue that holds the entry of
transaction 7 leaves the entries of transaction 7 as they were, and the added
element is keyed by 8. -/
theorem on_applied_tx_frame_scenario :
    (7 : transaction_id_type) ≠ 8 ∧
    action_queue_type.equal_range two_tx_plugin.action_queue 7
      = action_queue_type.equal_range
          (on_applied_tx .after_equivalent unlimited_plugin
            { id := 7, action_traces := [transfer_leaf] }).action_queue 7 ∧
    ((8, { act := noop_action, seq_num := 0, receiver := other }) ∈
        (on_applied_tx .after_equivalent unlimited_plugin
          { id := 7, action_traces := [transfer_leaf] }).action_queue ∨
      ((8, { act := noop_action, seq_num := 0, receiver := other }) :
        transaction_id_type × sequenced_action).1 = 8) :=
  ⟨by decide,
    (on_applied_tx_frame .after_equivalent
      (on_applied_tx .after_equivalent unlimited_plugin
        { id := 7, action_traces := [transfer_leaf] })
      { id := 8, action_traces := [noop_trace] }).1 7 (by decide),
    (on_applied_tx_frame .after_equivalent
      (on_applied_tx .after_equivalent unlimited_plugin
        { id := 7, action_traces := [transfer_leaf] })
      { id := 8, action_traces := [noop_trace] }).2.2.2.2.2
      (8, { act := noop_action, seq_num := 0, receiver := other }) (by decide)⟩

/-! ## Start-up (C14, C15, C16) -/

theorem filter_on_loop_frame (to_name : String → name) (my : notify_plugin_impl)
    (rules : List String) :
    (filter_on_loop to_name my rules).2.age_limit = my.age_limit ∧
    (filter_on_loop to_name my rules).2.receive_url = my.receive_url ∧
    (filter_on_loop to_name my rules).2.httpc = my.httpc ∧
    (filter_on_loop to_name my rules).2.action_queue = my.action_queue := by
  induction rules generalizing my with
  | nil => exact ⟨rfl, rfl, rfl, rfl⟩
  | cons s rest ih =>
    rw [filter_on_loop]
    by_cases h1 : (boost_split s).length ≠ 2
    · rw [if_pos h1]
      exact ⟨rfl, rfl, rfl, rfl⟩
    · rw [if_neg h1]
      by_cases h2 : (rule_entry to_name (boost_split s)).receiver = 0
      · rw [if_pos h2]
        exact ⟨rfl, rfl, rfl, rfl⟩
      · rw [if_neg h2]
        exact ih _

theorem mem_filter_on_insert (l : List filter_entry) (fe x : filter_entry) :
    x ∈ filter_on_insert l fe ↔ x ∈ l ∨ x = fe := by
  unfold filter_on_insert
  split_ifs with h
  · constructor
    · exact Or.inl
    · rintro (h1 | h1)
      · exact h1
      · rw [h1]
        exact h
  · simp

theorem filter_on_loop_ok (to_name : String → name) (my : notify_plugin_impl)
    (rules : List String)
    (h : ∀ r ∈ rules, (boost_split r).length = 2 ∧
      to_name ((boost_split r).getD 0 "") ≠ 0) :
    (filter_on_loop to_name my rules).1 = .ok () ∧
    ∀ fe, fe ∈ (filter_on_loop to_name my rules).2.filter_on ↔
      fe ∈ my.filter_on ∨ ∃ r ∈ rules, fe = rule_entry to_name (boost_split r) := by
  induction rules generalizing my with
  | nil => exact ⟨rfl, fun fe => by simp [filter_on_loop]⟩
  | cons s rest ih =>
    obtain ⟨h1, h2⟩ := h s (List.mem_cons_self _ _)
    have h2b : ¬ (rule_entry to_name (boost_split s)).receiver = 0 := h2
    rw [filter_on_loop]
    rw [if_neg (by simp [h1]), if_neg h2b]
    obtain ⟨ih1, ih2⟩ := ih { my with filter_on := filter_on_insert my.filter_on (rule_entry to_name (boost_split s)) } (fun r hr => h r (List.mem_cons_of_mem _ hr))
    refine ⟨ih1, fun fe => ?_⟩
    rw [ih2 fe]
    simp only [mem_filter_on_insert, List.mem_cons, exists_eq_or_imp]
    tauto

theorem filter_on_loop_bad (to_name : String → name) (my : notify_plugin_impl)
    (rules : List String)
    (h : ∃ r ∈ rules, (boost_split r).length ≠ 2 ∨
      to_name ((boost_split r).getD 0 "") = 0) :
    (filter_on_loop to_name my rules).1 = .error invalid_arg_exception := by
  induction rules generalizing my with
  | nil => simp at h
  | cons s rest ih =>
    rw [filter_on_loop]
    by_cases h1 : (boost_split s).length ≠ 2
    · rw [if_pos h1]
    · rw [if_neg h1]
      by_cases h2 : (rule_entry to_name (boost_split s)).receiver = 0
      · rw [if_pos h2]
      · rw [if_neg h2]
        apply ih
        obtain ⟨r, hr, hbad⟩ := h
        rcases List.mem_cons.mp hr with rfl | hmem
        · rcases hbad with hb | hb
          · exact absurd hb h1
          · exact absurd hb h2
        · exact ⟨r, hmem, hbad⟩

theorem plugin_initialize_without_url (to_name : String → name) (p : notify_plugin)
    (rules : List String) (lim : Option Int) :
    ( plugin_initialize to_name p (notify_options none rules lim))
      = (.error invalid_arg_exception, p) := by
  unfold plugin_initialize
  simp [variables_map.count, notify_options]

theorem plugin_initialize_with_url (to_name : String → name) (p : notify_plugin)
    (url_str : String) (rules : List String) (lim : Option Int) :
    ( plugin_initialize to_name p (notify_options (some url_str) rules lim))
      = match (filter_on_loop to_name { p.my with receive_url := url_str } rules).1 with
        | .error e =>
          (.error e,
            { p with my := (filter_on_loop to_name { p.my with receive_url := url_str } rules).2 })
        | .ok _ =>
          (.ok (),
            { my := (filter_on_loop to_name { p.my with receive_url := url_str } rules).2,
              accepted_block_conn := true, applied_tx_conn := true }) := by
  unfold plugin_initialize
  by_cases hr : rules = []
  · subst hr
    simp [variables_map.count, variables_map.at_string, notify_options, filter_on_loop]
  · simp [variables_map.count, variables_map.at_string, variables_map.at_strings,
      notify_options, hr]

theorem plugin_initialize_age_limit (to_name : String → name) (p : notify_plugin)
    (receive_url : Option String) (rules : List String) (lim : Option Int) :
    ( plugin_initialize to_name p (notify_options receive_url rules lim)).2.my.age_limit
      = p.my.age_limit := by
  cases receive_url with
  | none => rw [plugin_initialize_without_url]
  | some url_str =>
    rw [plugin_initialize_with_url]
    have hf := (filter_on_loop_frame to_name { p.my with receive_url := url_str } rules).1
    cases hl : (filter_on_loop to_name { p.my with receive_url := url_str } rules).1 with
    | error e => exact hf
    | ok u => exact hf

/-- C14 (failing input): whatever value `v` is given to `notify-age-limit`
(120, say), the age limit of a newly constructed plugin after
`plugin_initialize` is still the default 60: the option is looked up under the
names `filter_age_limit` and `filter-age-limit`, which are not registered. -/
theorem age_limit_option_is_ignored (to_name : String → name) (receive_url : Option String)
    (rules : List String) (v : Int) :
    ( plugin_initialize to_name notify_plugin.init
        (notify_options receive_url rules (some v))).2.my.age_limit = 60 := by
  rw [plugin_initialize_age_limit]
  rfl

theorem split_chars_append_sep (sep : Char) (cs : List Char) (h : sep ∉ cs) :
    split_chars sep (cs ++ [sep]) = [cs, []] := by
  induction cs with
  | nil => simp [split_chars]
  | cons c rest ih =>
    have hc : c ≠ sep := fun e => h (by rw [e]; exact List.mem_cons_self _ _)
    have hrest : sep ∉ rest := fun hm => h (List.mem_cons_of_mem _ hm)
    rw [List.cons_append, split_chars, if_neg hc, ih hrest]

theorem boost_split_omitted_action (s : String) (h : ':' ∉ s.data) :
    boost_split (s ++ ":") = [s, ""] := by
  unfold boost_split
  have hd : (s ++ ":").data = s.data ++ [':'] := by
    rw [String.data_append]
  rw [hd, split_chars_append_sep ':' s.data h]
  rfl

/-- C15: let `R` be a non-empty name (value not 0) whose string `s` has no
colon, and let the empty string convert to the empty name 0. When the receive
URL is given and every other `notify-filter-on` string is an acceptable rule,
the rule `s:` among them is accepted: `plugin_initialize` returns normally, the
rule set holds the wildcard rule `(R, 0)`, and afterwards `filter` returns true
for every action trace whose receiver is `R`, whatever its action. -/
theorem omitted_action_is_wildcard (to_name : String → name) (p : notify_plugin)
    (url_str : String) (rules : List String) (lim : Option Int) (R : name) (s : String)
    (hempty : to_name "" = 0) (hs : to_name s = R) (hR : R ≠ 0) (hcolon : ':' ∉ s.data)
    (hmem : s ++ ":" ∈ rules)
    (hrules : ∀ r ∈ rules, r ≠ s ++ ":" → (boost_split r).length = 2 ∧
      to_name ((boost_split r).getD 0 "") ≠ 0) :
    ( plugin_initialize to_name p (notify_options (some url_str) rules lim)).1 = .ok () ∧
    ({ receiver := R, action := 0 } : filter_entry) ∈
      ( plugin_initialize to_name p (notify_options (some url_str) rules lim)).2.my.filter_on ∧
    ∀ (a : action) (inline_traces : List action_trace),
      (filter ( plugin_initialize to_name p (notify_options (some url_str) rules lim)).2.my
        (.mk R a inline_traces)).1 = true := by
  have hall : ∀ r ∈ rules, (boost_split r).length = 2 ∧
      to_name ((boost_split r).getD 0 "") ≠ 0 := by
    intro r hr
    by_cases he : r = s ++ ":"
    · rw [he, boost_split_omitted_action s hcolon]
      refine ⟨rfl, ?_⟩
      show to_name s ≠ 0
      rw [hs]
      exact hR
    · exact hrules r hr he
  obtain ⟨hok, hfo⟩ := filter_on_loop_ok to_name { p.my with receive_url := url_str } rules hall
  have hentry : ({ receiver := R, action := 0 } : filter_entry) ∈
      (filter_on_loop to_name { p.my with receive_url := url_str } rules).2.filter_on := by
    rw [hfo]
    right
    refine ⟨s ++ ":", hmem, ?_⟩
    rw [boost_split_omitted_action s hcolon]
    simp [rule_entry, hs, hempty]
  rw [plugin_initialize_with_url, hok]
  refine ⟨rfl, hentry, fun a inline_traces => ?_⟩
  unfold filter
  simp only [action_trace.receiver]
  by_cases h1 : ({ receiver := R, action := (action_trace.mk R a inline_traces).act.name } :
      filter_entry) ∈
      (filter_on_loop to_name { p.my with receive_url := url_str } rules).2.filter_on
  · rw [if_pos h1]
  · rw [if_neg h1, if_pos hentry]

/-- Witness of C15: the single rule `tokenaccount:` gives the wildcard rule
of `tokenaccount`, and `filter` accepts every action received by it. -/
theorem omitted_action_is_wildcard_scenario :
    ( plugin_initialize scenario_to_name notify_plugin.init
        (notify_options (some "http://127.0.0.1:8080/notify") ["tokenaccount:"] none)).1
      = .ok () ∧
    ({ receiver := tokenaccount, action := 0 } : filter_entry) ∈
      ( plugin_initialize scenario_to_name notify_plugin.init
        (notify_options (some "http://127.0.0.1:8080/notify") ["tokenaccount:"]
          none)).2.my.filter_on ∧
    ∀ (a : action) (inline_traces : List action_trace),
      (filter ( plugin_initialize scenario_to_name notify_plugin.init
        (notify_options (some "http://127.0.0.1:8080/notify") ["tokenaccount:"] none)).2.my
        (.mk tokenaccount a inline_traces)).1 = true :=
  omitted_action_is_wildcard scenario_to_name notify_plugin.init "http://127.0.0.1:8080/notify"
    ["tokenaccount:"] none tokenaccount "tokenaccount" (by decide) (by decide) (by decide)
    (by decide) (by decide) (by decide)

/-- C16: `plugin_initialize` fails with `fc::invalid_arg_exception` and leaves
both signal connections as they were when `notify-receive-url` is not in the
options, or when some `notify-filter-on` string does not split at the colons
into exactly two pieces or has a receiver piece that converts to the name 0;
otherwise it returns normally, sets both connections, and the entry of every
given rule is in the rule set. -/
theorem plugin_initialize_checks_options (to_name : String → name) (p : notify_plugin)
    (receive_url : Option String) (rules : List String) (lim : Option Int) :
    ((receive_url = none ∨
        ∃ r ∈ rules, (boost_split r).length ≠ 2 ∨ to_name ((boost_split r).getD 0 "") = 0) →
      ( plugin_initialize to_name p (notify_options receive_url rules lim)).1
        = .error invalid_arg_exception ∧
      ( plugin_initialize to_name p (notify_options receive_url rules lim)).2.accepted_block_conn
        = p.accepted_block_conn ∧
      ( plugin_initialize to_name p (notify_options receive_url rules lim)).2.applied_tx_conn
        = p.applied_tx_conn) ∧
    (¬ (receive_url = none ∨
        ∃ r ∈ rules, (boost_split r).length ≠ 2 ∨ to_name ((boost_split r).getD 0 "") = 0) →
      ( plugin_initialize to_name p (notify_options receive_url rules lim)).1 = .ok () ∧
      ( plugin_initialize to_name p (notify_options receive_url rules lim)).2.accepted_block_conn
        = true ∧
      ( plugin_initialize to_name p (notify_options receive_url rules lim)).2.applied_tx_conn
        = true ∧
      ∀ r ∈ rules, rule_entry to_name (boost_split r) ∈
        ( plugin_initialize to_name p
          (notify_options receive_url rules lim)).2.my.filter_on) := by
  constructor
  · intro h
    cases receive_url with
    | none =>
      rw [plugin_initialize_without_url]
      exact ⟨rfl, rfl, rfl⟩
    | some url_str =>
      have hbad : ∃ r ∈ rules, (boost_split r).length ≠ 2 ∨
          to_name ((boost_split r).getD 0 "") = 0 := by
        rcases h with h | h
        · cases h
        · exact h
      rw [plugin_initialize_with_url,
        filter_on_loop_bad to_name { p.my with receive_url := url_str } rules hbad]
      exact ⟨rfl, rfl, rfl⟩
  · intro h
    cases receive_url with
    | none => exact absurd (Or.inl rfl) h
    | some url_str =>
      have hgood : ∀ r ∈ rules, (boost_split r).length = 2 ∧
          to_name ((boost_split r).getD 0 "") ≠ 0 := by
        intro r hr
        constructor
        · by_contra hc
          exact h (Or.inr ⟨r, hr, Or.inl hc⟩)
        · intro hc
          exact h (Or.inr ⟨r, hr, Or.inr hc⟩)
      obtain ⟨hok, hfo⟩ :=
        filter_on_loop_ok to_name { p.my with receive_url := url_str } rules hgood
      rw [plugin_initialize_with_url, hok]
      refine ⟨rfl, rfl, rfl, fun r hr => ?_⟩
      exact (hfo _).mpr (Or.inr ⟨r, hr, rfl⟩)

/-- Witness of C16: a rule without a colon is refused with
`fc::invalid_arg_exception` and no signal is connected; the rules
`tokenaccount:transfer` and `tokenaccount:` are both inserted. -/
theorem plugin_initialize_checks_options_scenario :
    (( plugin_initialize scenario_to_name notify_plugin.init
        (notify_options (some "http://127.0.0.1:8080/notify") ["tokenaccount"] none)).1
      = .error invalid_arg_exception ∧
    ( plugin_initialize scenario_to_name notify_plugin.init
        (notify_options (some "http://127.0.0.1:8080/notify") ["tokenaccount"]
          none)).2.accepted_block_conn = false ∧
    ( plugin_initialize scenario_to_name notify_plugin.init
        (notify_options (some "http://127.0.0.1:8080/notify") ["tokenaccount"]
          none)).2.applied_tx_conn = false) ∧
    (( plugin_initialize scenario_to_name notify_plugin.init
        (notify_options (some "http://127.0.0.1:8080/notify")
          ["tokenaccount:transfer", "tokenaccount:"] none)).1 = .ok () ∧
    ( plugin_initialize scenario_to_name notify_plugin.init
        (notify_options (some "http://127.0.0.1:8080/notify")
          ["tokenaccount:transfer", "tokenaccount:"] none)).2.accepted_block_conn = true ∧
    ( plugin_initialize scenario_to_name notify_plugin.init
        (notify_options (some "http://127.0.0.1:8080/notify")
          ["tokenaccount:transfer", "tokenaccount:"] none)).2.applied_tx_conn = true ∧
    ∀ r ∈ ["tokenaccount:transfer", "tokenaccount:"],
      rule_entry scenario_to_name (boost_split r) ∈
        ( plugin_initialize scenario_to_name notify_plugin.init
          (notify_options (some "http://127.0.0.1:8080/notify")
            ["tokenaccount:transfer", "tokenaccount:"] none)).2.my.filter_on) :=
  ⟨(plugin_initialize_checks_options scenario_to_name notify_plugin.init
      (some "http://127.0.0.1:8080/notify") ["tokenaccount"] none).1
      (Or.inr ⟨"tokenaccount", by decide, Or.inl (by decide)⟩),
    (plugin_initialize_checks_options scenario_to_name notify_plugin.init
      (some "http://127.0.0.1:8080/notify") ["tokenaccount:transfer", "tokenaccount:"] none).2
      (by decide)⟩

end eosio
